import Mathlib

set_option maxHeartbeats 1000000

/-!
Shallow embedding of the `rusty-chip8` core (`src/lib.rs`): constants, the
instruction type, the decoder (`Instruction::new`), the execution engine
(`Chip8::execute_instruction`), the clock driver (`Chip8::tick`) and the
host-facing operations (`store_in_ram`, `handle_key_pressed`).

Machine integers are modelled as `Nat` with explicit wrap-around (`% 256` for
`u8`, `% 2 ^ 64` for `usize`) exactly where the Rust code wraps.  Rust panics
and `anyhow` errors are both modelled as `Except.error` (both are fatal for the
emulation).  The `rand::random::<u8>()` draw is passed in as an explicit
oracle argument.  `u16::from_ne_bytes([nn, x])` is modelled with the
little-endian meaning `(x <<< 8) ||| nn`, the behaviour on the supported
little-endian targets.
-/

/-- Number of horizontal pixels (`TERMINAL_WIDTH`). -/
def TERMINAL_WIDTH : Nat := 64

/-- Number of vertical pixels (`TERMINAL_HEIGHT`). -/
def TERMINAL_HEIGHT : Nat := 32

/-- Frame rate per second (`FPS`). -/
def FPS : Nat := 60

/-- RAM size in bytes (`RAM_SIZE`). -/
def RAM_SIZE : Nat := 4096

/-- Program start offset (`PROGRAM_START`). -/
def PROGRAM_START : Nat := 512

/-- Font table base address (`FONT_ADDR`). -/
def FONT_ADDR : Nat := 0x50

/-- Bytes per font glyph (`FONT_SIZE`). -/
def FONT_SIZE : Nat := 5

/-- One past the largest `usize` value: `usize` arithmetic wraps at `2 ^ 64`
on the 64-bit targets the emulator runs on. -/
def USIZE_WRAP : Nat := 2 ^ 64

/-- The Chip8 instruction set, one constructor per variant of the Rust
`Instruction` enum. -/
inductive Instruction where
  | Cls00E0
  | SetIndexRegisterANNN (nnn : Nat)
  | SetVRegister6XNN (x nn : Nat)
  | Dxyn (x y n : Nat)
  | Add7XNN (x nn : Nat)
  | Jump1NNN (nnn : Nat)
  | SubroutineCall2NNN (nnn : Nat)
  | SubroutineReturn00EE
  | SkipEqual3XNN (x nn : Nat)
  | SkipNotEqual4XNN (x nn : Nat)
  | BinaryCodedDecimalConversionFX33 (x : Nat)
  | FontCharacterFX29 (x : Nat)
  | SetDelayTimerFX15 (x : Nat)
  | ReadDelayTimerFX07 (x : Nat)
  | GetKeyFX0A (x : Nat)
  | SetSoundTimerFX18 (x : Nat)
  | AddToIndexFX1E (x : Nat)
  | StoreRegistersToMemoryFX55 (x : Nat)
  | LoadRegistersFromMemoryFX65 (x : Nat)
  | RandomCXNN (x nn : Nat)
  | SkipIfKeyPressedEX9E (x : Nat)
  | SkipIfKeyNotPressedEXA1 (x : Nat)
  | BinaryAnd8XY2 (x y : Nat)
  | RegisterAdd8XY4 (x y : Nat)
  | RegisterSet8XY0 (x y : Nat)
  | RegisterSub8XY5 (x y : Nat)
  | RegisterSubRev8XY7 (x y : Nat)
  | ShiftRight8XY6 (x y : Nat)
  | ShiftLeft8XYE (x y : Nat)
  | SkipIfEqual5XY0 (x y : Nat)
  | SkipIfNotEqual9XY0 (x y : Nat)
  | Xor8XY3 (x y : Nat)
deriving DecidableEq

/-- The `match` of `Instruction::new`, over the already-extracted nibbles, in
the arm order of the Rust source. -/
def decodeNibbles (i x y n nn nnn : Nat) : Except String Instruction :=
  match i, x, y, n with
  | 0, 0, 0xE, 0 => .ok .Cls00E0
  | 0xA, _, _, _ => .ok (.SetIndexRegisterANNN nnn)
  | 1, _, _, _ => .ok (.Jump1NNN nnn)
  | 6, _, _, _ => .ok (.SetVRegister6XNN x nn)
  | 0xD, _, _, _ => .ok (.Dxyn x y n)
  | 2, _, _, _ => .ok (.SubroutineCall2NNN nnn)
  | 0, 0, 0xE, 0xE => .ok .SubroutineReturn00EE
  | 3, _, _, _ => .ok (.SkipEqual3XNN x nn)
  | 4, _, _, _ => .ok (.SkipNotEqual4XNN x nn)
  | 5, _, _, 0 => .ok (.SkipIfEqual5XY0 x y)
  | 9, _, _, 0 => .ok (.SkipIfNotEqual9XY0 x y)
  | 7, _, _, _ => .ok (.Add7XNN x nn)
  | 8, _, _, 3 => .ok (.Xor8XY3 x y)
  | 0xF, _, 3, 3 => .ok (.BinaryCodedDecimalConversionFX33 x)
  | 0xF, _, 2, 9 => .ok (.FontCharacterFX29 x)
  | 0xF, _, 1, 5 => .ok (.SetDelayTimerFX15 x)
  | 0xF, _, 0, 7 => .ok (.ReadDelayTimerFX07 x)
  | 0xF, _, 0, 0xA => .ok (.GetKeyFX0A x)
  | 0xF, _, 1, 8 => .ok (.SetSoundTimerFX18 x)
  | 0xF, _, 1, 0xE => .ok (.AddToIndexFX1E x)
  | 0xF, _, 5, 5 => .ok (.StoreRegistersToMemoryFX55 x)
  | 0xF, _, 6, 5 => .ok (.LoadRegistersFromMemoryFX65 x)
  | 0xC, _, _, _ => .ok (.RandomCXNN x nn)
  | 0xE, _, 9, 0xE => .ok (.SkipIfKeyPressedEX9E x)
  | 0xE, _, 0xA, 1 => .ok (.SkipIfKeyNotPressedEXA1 x)
  | 8, _, _, 2 => .ok (.BinaryAnd8XY2 x y)
  | 8, _, _, 4 => .ok (.RegisterAdd8XY4 x y)
  | 8, _, _, 0 => .ok (.RegisterSet8XY0 x y)
  | 8, _, _, 5 => .ok (.RegisterSub8XY5 x y)
  | 8, _, _, 6 => .ok (.ShiftRight8XY6 x y)
  | 8, _, _, 0xE => .ok (.ShiftLeft8XYE x y)
  | 8, _, _, 7 => .ok (.RegisterSubRev8XY7 x y)
  | _, _, _, _ => .error "unimplemented instruction"

/-- `Instruction::new(b1, b2)`: extract the operand fields and decode.
`nnn` is `u16::from_ne_bytes([nn, x])`, i.e. `(x <<< 8) ||| nn` on a
little-endian target. -/
def Instruction.new (b1 b2 : Nat) : Except String Instruction :=
  let i := b1 >>> 4
  let x := b1 &&& 0xf
  let y := b2 >>> 4
  let n := b2 &&& 0xf
  let nn := b2
  let nnn := (x <<< 8) ||| nn
  decodeNibbles i x y n nn nnn

/-- `Instruction::requires_pc_inc`: the per-instruction program-counter
advance; `0` only for `jump` and `call`, `2` for everything else. -/
def Instruction.requires_pc_inc : Instruction → Nat
  | .SubroutineCall2NNN _ | .Jump1NNN _ => 0
  | _ => 2

/-- Modelled from the spec (section 4.1 decoding table): the expected decode
function, written from the table `00E0 -> clear-screen; 00EE -> return; ...`,
in the table's own order, with the operand formulas `i = b1 >> 4`,
`x = b1 and 0xF`, `y = b2 >> 4`, `n = b2 and 0xF`, `nn = b2`,
`nnn = (x << 8) or nn`; any pattern not in the table is a decode failure
(`none`), including `0nnn` other than `00E0`/`00EE`, `Bnnn`, and `8xy1`. -/
def specDecodeNibbles (i x y n nn nnn : Nat) : Option Instruction :=
  match i, x, y, n with
  | 0, 0, 0xE, 0 => some .Cls00E0
  | 0, 0, 0xE, 0xE => some .SubroutineReturn00EE
  | 1, _, _, _ => some (.Jump1NNN nnn)
  | 2, _, _, _ => some (.SubroutineCall2NNN nnn)
  | 3, _, _, _ => some (.SkipEqual3XNN x nn)
  | 4, _, _, _ => some (.SkipNotEqual4XNN x nn)
  | 5, _, _, 0 => some (.SkipIfEqual5XY0 x y)
  | 9, _, _, 0 => some (.SkipIfNotEqual9XY0 x y)
  | 6, _, _, _ => some (.SetVRegister6XNN x nn)
  | 7, _, _, _ => some (.Add7XNN x nn)
  | 8, _, _, 0 => some (.RegisterSet8XY0 x y)
  | 8, _, _, 2 => some (.BinaryAnd8XY2 x y)
  | 8, _, _, 3 => some (.Xor8XY3 x y)
  | 8, _, _, 4 => some (.RegisterAdd8XY4 x y)
  | 8, _, _, 5 => some (.RegisterSub8XY5 x y)
  | 8, _, _, 6 => some (.ShiftRight8XY6 x y)
  | 8, _, _, 7 => some (.RegisterSubRev8XY7 x y)
  | 8, _, _, 0xE => some (.ShiftLeft8XYE x y)
  | 0xA, _, _, _ => some (.SetIndexRegisterANNN nnn)
  | 0xC, _, _, _ => some (.RandomCXNN x nn)
  | 0xD, _, _, _ => some (.Dxyn x y n)
  | 0xE, _, 9, 0xE => some (.SkipIfKeyPressedEX9E x)
  | 0xE, _, 0xA, 1 => some (.SkipIfKeyNotPressedEXA1 x)
  | 0xF, _, 0, 7 => some (.ReadDelayTimerFX07 x)
  | 0xF, _, 0, 0xA => some (.GetKeyFX0A x)
  | 0xF, _, 1, 5 => some (.SetDelayTimerFX15 x)
  | 0xF, _, 1, 8 => some (.SetSoundTimerFX18 x)
  | 0xF, _, 1, 0xE => some (.AddToIndexFX1E x)
  | 0xF, _, 2, 9 => some (.FontCharacterFX29 x)
  | 0xF, _, 3, 3 => some (.BinaryCodedDecimalConversionFX33 x)
  | 0xF, _, 5, 5 => some (.StoreRegistersToMemoryFX55 x)
  | 0xF, _, 6, 5 => some (.LoadRegistersFromMemoryFX65 x)
  | _, _, _, _ => none

/-- Modelled from the spec (section 4.1): the whole expected decode function,
operand extraction plus table lookup. -/
def specDecode (b1 b2 : Nat) : Option Instruction :=
  let i := b1 >>> 4
  let x := b1 &&& 0xF
  let y := b2 >>> 4
  let n := b2 &&& 0xF
  let nn := b2
  let nnn := (x <<< 8) ||| nn
  specDecodeNibbles i x y n nn nnn

/-- Forget the error message of a decode result. -/
def okOf (e : Except String Instruction) : Option Instruction :=
  match e with
  | .ok i => some i
  | .error _ => none

/-- The decode tables of the source and of the spec agree on every nibble
quadruple (with the 8-bit/12-bit operands arbitrary). -/
theorem nibbles_agree (i x y n nn nnn : Nat) (hi : i < 16) (hx : x < 16)
    (hy : y < 16) (hn : n < 16) :
    okOf (decodeNibbles i x y n nn nnn) = specDecodeNibbles i x y n nn nnn := by
  interval_cases i <;>
    first
    | rfl
    | (interval_cases n <;> rfl)
    | (interval_cases y <;> first | rfl | (interval_cases n <;> rfl))
    | (interval_cases x <;> first
        | rfl
        | (interval_cases y <;> first | rfl | (interval_cases n <;> rfl)))

/-- A call to the `Graphics` capability: `draw_pixel(x, y)` or
`clear_pixel(x, y)`. -/
inductive GCall where
  | draw (x y : Nat)
  | clear (x y : Nat)
deriving DecidableEq

/-- A call to the `Audio` capability. -/
inductive ACall where
  | start_beep
  | stop_beep
deriving DecidableEq

/-- Whether a graphics call is a `clear_pixel` call. -/
def isClear : GCall → Bool
  | .clear _ _ => true
  | .draw _ _ => false

/-- The Chip8 machine state (the `Chip8` struct).  The `u8` registers, timers
and RAM bytes are `Nat`s kept below 256 by the operations that write them;
`pixels` is indexed `pixels y x` like the row-major `Vec<Vec<bool>>`;
the call stack is a list with its head as the top. -/
structure Chip8 where
  clock : Nat
  pixels : Nat → Nat → Bool
  ram : Nat → Nat
  pc : Nat
  i : Nat
  stack : List Nat
  registers : Nat → Nat
  delay_timer : Nat
  sound_timer : Nat
  beeping : Bool
  key_pressed : Option Nat
  waiting_for_input : Option Nat

/-- Write register `j` (`self.registers[j] = v`). -/
def setReg (r : Nat → Nat) (j v : Nat) : Nat → Nat :=
  fun k => if k = j then v else r k

/-- Write the framebuffer cell at row `y`, column `x`
(`self.pixels[y][x] = b`). -/
def setPixel (px : Nat → Nat → Bool) (y x : Nat) (b : Bool) : Nat → Nat → Bool :=
  fun y0 x0 => if y0 = y ∧ x0 = x then b else px y0 x0

/-- `check_coordinates`: fail on a coordinate outside the screen. -/
def check_coordinates (x y : Nat) : Except String Unit :=
  if TERMINAL_WIDTH ≤ x then .error "invalid X coordinate to draw"
  else if TERMINAL_HEIGHT ≤ y then .error "invalid Y coordinate to draw"
  else .ok ()

/-- `Chip8::is_pixel_on` over a bare framebuffer. -/
def isPixelOn (px : Nat → Nat → Bool) (x y : Nat) : Except String Bool :=
  match check_coordinates x y with
  | .error e => .error e
  | .ok _ => .ok (px y x)

/-- The body of the inner `Dxyn` loop for one bit index `i` of sprite byte
`row` at cell `(x, y)`: if the bit is set, read the pixel (fallible), XOR it
and record the matching graphics call and the collision of this cell. -/
def drawBitStep (row i x y : Nat) (px : Nat → Nat → Bool) :
    Except String ((Nat → Nat → Bool) × List GCall × Bool) :=
  if (row >>> i) &&& 1 = 1 then
    (match isPixelOn px x y with
     | .error e => .error e
     | .ok isOn =>
       .ok (setPixel px y x (!isOn),
            if isOn then [GCall.clear x y] else [GCall.draw x y], isOn))
  else .ok (px, [], false)

/-- The inner loop of the `Dxyn` arm: walk the bit indices
(`for i in (0..8).rev()`) of one sprite `row` starting at column `x` of row
`y`, XOR-toggling the framebuffer, recording graphics calls and the collision
flag, and breaking out when the incremented column reaches the right edge. -/
def drawBits (row : Nat) : List Nat → Nat → Nat → (Nat → Nat → Bool) →
    Except String ((Nat → Nat → Bool) × List GCall × Bool)
  | [], _, _, px => .ok (px, [], false)
  | i :: rest, x, y, px =>
    match drawBitStep row i x y px with
    | .error e => .error e
    | .ok (px1, cs1, col1) =>
      if x + 1 = TERMINAL_WIDTH then .ok (px1, cs1, col1)
      else
        match drawBits row rest (x + 1) y px1 with
        | .error e => .error e
        | .ok (px2, cs2, col2) => .ok (px2, cs1 ++ cs2, col1 || col2)

/-- The outer loop of the `Dxyn` arm: walk the sprite rows starting at row
`y`, with every row starting again at column `x_org`, breaking out when the
incremented row reaches the bottom edge. -/
def drawRows (x_org : Nat) : List Nat → Nat → (Nat → Nat → Bool) →
    Except String ((Nat → Nat → Bool) × List GCall × Bool)
  | [], _, px => .ok (px, [], false)
  | row :: rest, y, px =>
    match drawBits row (List.range 8).reverse x_org y px with
    | .error e => .error e
    | .ok (px1, cs1, col1) =>
      if y + 1 = TERMINAL_HEIGHT then .ok (px1, cs1, col1)
      else
        match drawRows x_org rest (y + 1) px1 with
        | .error e => .error e
        | .ok (px2, cs2, col2) => .ok (px2, cs1 ++ cs2, col1 || col2)

/-- `Chip8::execute_instruction`: apply one decoded instruction to the
machine state, returning the new state and the graphics calls made, or an
error (panics and `anyhow` errors alike).  `rand` is the byte drawn by
`rand::random::<u8>()` for `Cxnn`. -/
def execute_instruction (s : Chip8) (inst : Instruction) (rand : Nat) :
    Except String (Chip8 × List GCall) :=
  match inst with
  | .Cls00E0 =>
    .ok ({ s with pixels := fun _ _ => false },
         (List.range TERMINAL_HEIGHT).flatMap fun y =>
           (List.range TERMINAL_WIDTH).filterMap fun x =>
             if s.pixels y x then some (GCall.clear x y) else none)
  | .SetIndexRegisterANNN nnn => .ok ({ s with i := nnn }, [])
  | .SetVRegister6XNN x nn => .ok ({ s with registers := setReg s.registers x nn }, [])
  | .Dxyn x y n =>
    let x_org := s.registers x % TERMINAL_WIDTH
    let y_org := s.registers y % TERMINAL_HEIGHT
    let s0 := { s with registers := setReg s.registers 15 0 }
    if s0.i + n ≤ RAM_SIZE then
      match drawRows x_org ((List.range n).map fun k => s0.ram (s0.i + k)) y_org s0.pixels with
      | .error e => .error e
      | .ok (px', calls, collision) =>
        let s1 := { s0 with pixels := px' }
        .ok (if collision then { s1 with registers := setReg s1.registers 15 1 } else s1,
             calls)
    else .error "sprite slice out of range"
  | .Add7XNN x nn =>
    .ok ({ s with registers := setReg s.registers x ((s.registers x + nn) % 256) }, [])
  | .Jump1NNN nnn => .ok ({ s with pc := nnn }, [])
  | .SubroutineCall2NNN nnn => .ok ({ s with stack := s.pc :: s.stack, pc := nnn }, [])
  | .SubroutineReturn00EE =>
    match s.stack with
    | [] => .error "failed to return from subroutine: stack underflow"
    | p :: rest => .ok ({ s with pc := p, stack := rest }, [])
  | .SkipEqual3XNN x nn =>
    .ok (if s.registers x = nn then { s with pc := s.pc + 2 } else s, [])
  | .SkipNotEqual4XNN x nn =>
    .ok (if s.registers x ≠ nn then { s with pc := s.pc + 2 } else s, [])
  | .BinaryCodedDecimalConversionFX33 x =>
    if s.i + 2 < RAM_SIZE then
      .ok ({ s with ram := fun a =>
              if a = s.i then s.registers x / 100
              else if a = s.i + 1 then s.registers x % 100 / 10
              else if a = s.i + 2 then s.registers x % 10
              else s.ram a }, [])
    else .error "ram index out of bounds"
  | .FontCharacterFX29 x =>
    .ok ({ s with i := FONT_ADDR + s.registers x * FONT_SIZE }, [])
  | .SetDelayTimerFX15 x => .ok ({ s with delay_timer := s.registers x }, [])
  | .ReadDelayTimerFX07 x =>
    .ok ({ s with registers := setReg s.registers x s.delay_timer }, [])
  | .SetSoundTimerFX18 x => .ok ({ s with sound_timer := s.registers x }, [])
  | .AddToIndexFX1E x =>
    .ok ({ s with
           i := (s.i + s.registers x) % USIZE_WRAP,
           registers :=
             if USIZE_WRAP ≤ s.i + s.registers x then setReg s.registers 15 1
             else s.registers }, [])
  | .StoreRegistersToMemoryFX55 x =>
    if x < 16 ∧ s.i + x < RAM_SIZE then
      .ok ({ s with ram := fun a =>
              if s.i ≤ a ∧ a ≤ s.i + x then s.registers (a - s.i) else s.ram a }, [])
    else .error "ram index out of bounds"
  | .LoadRegistersFromMemoryFX65 x =>
    if x < 16 ∧ s.i + x < RAM_SIZE then
      .ok ({ s with registers := fun j =>
              if j ≤ x then s.ram (s.i + j) else s.registers j }, [])
    else .error "ram index out of bounds"
  | .RandomCXNN x nn =>
    .ok ({ s with registers := setReg s.registers x (rand % 256 &&& nn) }, [])
  | .SkipIfKeyPressedEX9E x =>
    .ok (if s.key_pressed = some (s.registers x) then { s with pc := s.pc + 2 } else s, [])
  | .SkipIfKeyNotPressedEXA1 x =>
    .ok (if s.key_pressed ≠ some (s.registers x) then { s with pc := s.pc + 2 } else s, [])
  | .BinaryAnd8XY2 x y =>
    .ok ({ s with registers := setReg s.registers x (s.registers x &&& s.registers y) }, [])
  | .RegisterAdd8XY4 x y =>
    .ok ({ s with registers :=
            (setReg (setReg s.registers x ((s.registers x + s.registers y) % 256)) 15
              (if 256 ≤ s.registers x + s.registers y then 1 else 0)) }, [])
  | .RegisterSet8XY0 x y =>
    .ok ({ s with registers := setReg s.registers x (s.registers y) }, [])
  | .RegisterSub8XY5 x y =>
    .ok ({ s with registers :=
            (setReg (setReg s.registers x ((s.registers x + 256 - s.registers y) % 256)) 15
              (if s.registers x < s.registers y then 0 else 1)) }, [])
  | .RegisterSubRev8XY7 x y =>
    .ok ({ s with registers :=
            (setReg (setReg s.registers x ((s.registers y + 256 - s.registers x) % 256)) 15
              (if s.registers y < s.registers x then 0 else 1)) }, [])
  | .GetKeyFX0A x => .ok ({ s with waiting_for_input := some x }, [])
  | .ShiftRight8XY6 x _y =>
    let r1 := setReg s.registers 15 (s.registers x &&& 1)
    .ok ({ s with registers := setReg r1 x (r1 x >>> 1) }, [])
  | .ShiftLeft8XYE x _y =>
    let r1 := setReg s.registers 15 (s.registers x &&& (1 <<< 7))
    .ok ({ s with registers := setReg r1 x (r1 x <<< 1 % 256) }, [])
  | .SkipIfEqual5XY0 x y =>
    .ok (if s.registers x = s.registers y then { s with pc := s.pc + 2 } else s, [])
  | .SkipIfNotEqual9XY0 x y =>
    .ok (if s.registers x ≠ s.registers y then { s with pc := s.pc + 2 } else s, [])
  | .Xor8XY3 x y =>
    .ok ({ s with registers := setReg s.registers x (s.registers x ^^^ s.registers y) }, [])

/-- `u8::saturating_sub`. -/
def saturating_sub (a b : Nat) : Nat := if a < b then 0 else a - b

/-- `Chip8::decrease_timers`: saturating decrement of both timers. -/
def decrease_timers (s : Chip8) : Chip8 :=
  { s with
    delay_timer := saturating_sub s.delay_timer 1,
    sound_timer := saturating_sub s.sound_timer 1 }

/-- `Chip8::fetch_and_decode_next_instruction`: read the two opcode bytes at
`pc` (a read outside RAM is a panic, modelled as an error) and decode them. -/
def fetch_and_decode_next_instruction (s : Chip8) : Except String Instruction :=
  if s.pc + 1 < RAM_SIZE then
    match Instruction.new (s.ram s.pc) (s.ram (s.pc + 1)) with
    | .error _ => .error "failed to decode instruction"
    | .ok inst => .ok inst
  else .error "invalid memory address"

/-- Execute one instruction and then apply the engine's per-instruction
program-counter advance (`self.pc += inst.requires_pc_inc()`). -/
def execAdvance (s : Chip8) (inst : Instruction) (rand : Nat) :
    Except String (Chip8 × List GCall) :=
  match execute_instruction s inst rand with
  | .error e => .error e
  | .ok (s1, g) => .ok ({ s1 with pc := s1.pc + inst.requires_pc_inc }, g)

/-- One iteration of the loop body of `Chip8::tick` (after the waiting
check): fetch, decode, execute, advance `pc`, then run the audio edge
check against the beeping flag. -/
def cycle (s : Chip8) (rand : Nat) :
    Except String (Chip8 × List GCall × List ACall) :=
  match fetch_and_decode_next_instruction s with
  | .error e => .error e
  | .ok inst =>
    match execAdvance s inst rand with
    | .error e => .error e
    | .ok (s2, g) =>
      if 0 < s2.sound_timer ∧ s2.beeping = false then
        .ok ({ s2 with beeping := true }, g, [ACall.start_beep])
      else if s2.sound_timer = 0 ∧ s2.beeping = true then
        .ok ({ s2 with beeping := false }, g, [ACall.stop_beep])
      else .ok (s2, g, [])

/-- The instruction loop of `Chip8::tick`: run up to `k` cycles, stopping
early (an early `return`) as soon as the machine is waiting for input.
`rnd` supplies the random byte of each cycle. -/
def runCycles : Nat → Chip8 → (Nat → Nat) →
    Except String (Chip8 × List GCall × List ACall)
  | 0, s, _ => .ok (s, [], [])
  | k + 1, s, rnd =>
    if s.waiting_for_input.isSome then .ok (s, [], [])
    else
      match cycle s (rnd 0) with
      | .error e => .error e
      | .ok (s1, g1, a1) =>
        match runCycles k s1 (fun j => rnd (j + 1)) with
        | .error e => .error e
        | .ok (s2, g2, a2) => .ok (s2, g1 ++ g2, a1 ++ a2)

/-- `Chip8::tick`: decrement the timers once, then run `clock / FPS`
fetch-decode-execute cycles (the wall-clock `sleep` pacing is dropped). -/
def tick (s : Chip8) (rnd : Nat → Nat) :
    Except String (Chip8 × List GCall × List ACall) :=
  runCycles (s.clock / FPS) (decrease_timers s) rnd

/-- `Chip8::handle_key_released`. -/
def handle_key_released (s : Chip8) : Chip8 :=
  { s with key_pressed := none }

/-- `Chip8::handle_key_pressed`: latch the key; if a get-key wait is
pending, store the key into the recorded register and clear the wait. -/
def handle_key_pressed (s : Chip8) (key : Nat) : Chip8 :=
  let s1 := { s with key_pressed := some key }
  match s1.waiting_for_input with
  | some x =>
    { s1 with registers := setReg s1.registers x key, waiting_for_input := none }
  | none => s1

/-- `Chip8::store_in_ram`: returns the (possibly unchanged) state together
with the result, mirroring `&mut self` plus `Result<()>`; rejects a ROM that
does not fit above `PROGRAM_START` before touching any state. -/
def store_in_ram (s : Chip8) (rom : List Nat) : Chip8 × Except String Unit :=
  if RAM_SIZE < rom.length + PROGRAM_START then
    (s, .error "data is too big to fit into the ram")
  else
    ({ s with ram := fun a =>
         if PROGRAM_START ≤ a ∧ a < PROGRAM_START + rom.length then
           rom.getD (a - PROGRAM_START) 0
         else s.ram a },
     .ok ())

/-- A zeroed machine with the configuration `Chip8::new(60)` would give apart
from the font table: clock 60 (one instruction per tick), `pc` at
`PROGRAM_START`, empty stack, everything else zero. -/
def baseState : Chip8 :=
  { clock := 60, pixels := fun _ _ => false, ram := fun _ => 0, pc := 512,
    i := 0, stack := [], registers := fun _ => 0, delay_timer := 0,
    sound_timer := 0, beeping := false, key_pressed := none,
    waiting_for_input := none }

/-- Project a register value out of an execution result. -/
def regOfResult (e : Except String (Chip8 × List GCall)) (j : Nat) : Option Nat :=
  match e with
  | .ok (s, _) => some (s.registers j)
  | .error _ => none

/-- Project the index register out of an execution result. -/
def iOfResult (e : Except String (Chip8 × List GCall)) : Option Nat :=
  match e with
  | .ok (s, _) => some s.i
  | .error _ => none

/-- Project the program counter out of an execution result. -/
def pcOfResult (e : Except String (Chip8 × List GCall)) : Option Nat :=
  match e with
  | .ok (s, _) => some s.pc
  | .error _ => none

/-- Project a framebuffer cell (row `cy`, column `cx`) out of an execution
result. -/
def pixOfResult (e : Except String (Chip8 × List GCall)) (cy cx : Nat) : Option Bool :=
  match e with
  | .ok (s, _) => some (s.pixels cy cx)
  | .error _ => none

/-- Count the `clear_pixel (cx, cy)` calls of an execution result. -/
def clearCountOfResult (e : Except String (Chip8 × List GCall)) (cx cy : Nat) : Option Nat :=
  match e with
  | .ok (_, calls) => some (calls.count (GCall.clear cx cy))
  | .error _ => none

/-- Project the program counter out of a cycle result. -/
def pcOfCycle (e : Except String (Chip8 × List GCall × List ACall)) : Option Nat :=
  match e with
  | .ok (s, _, _) => some s.pc
  | .error _ => none

/-- C2: decoding is total over all byte pairs: every opcode matching a
pattern of the decoding table yields exactly the corresponding instruction
variant with operands `i = b1 >>> 4`, `x = b1 &&& 0xF`, `y = b2 >>> 4`,
`n = b2 &&& 0xF`, `nn = b2`, `nnn = (x <<< 8) ||| nn`, and every other bit
pattern (including `0nnn` other than `00E0`/`00EE`, `Bnnn` and `8xy1`) is a
decode failure: the source decoder agrees with the spec decode table
everywhere. -/
theorem C2_decode_total_agrees_with_table :
    ∀ b1 b2 : Nat, b1 < 256 → b2 < 256 →
      okOf (Instruction.new b1 b2) = specDecode b1 b2 := by
  intro b1 b2 h1 h2
  show okOf (decodeNibbles (b1 >>> 4) (b1 &&& 0xf) (b2 >>> 4) (b2 &&& 0xf) b2
        ((b1 &&& 0xf) <<< 8 ||| b2)) =
      specDecodeNibbles (b1 >>> 4) (b1 &&& 0xF) (b2 >>> 4) (b2 &&& 0xF) b2
        ((b1 &&& 0xF) <<< 8 ||| b2)
  exact nibbles_agree _ _ _ _ _ _
    (by rw [Nat.shiftRight_eq_div_pow]; omega)
    (by have := Nat.and_le_right (n := b1) (m := 15); omega)
    (by rw [Nat.shiftRight_eq_div_pow]; omega)
    (by have := Nat.and_le_right (n := b2) (m := 15); omega)

/-- C2 witness: the decode agreement applied to the concrete opcode
`0xD521` (a sprite draw). -/
theorem C2_witness :
    okOf (Instruction.new 0xD5 0x21) = specDecode 0xD5 0x21 :=
  C2_decode_total_agrees_with_table 0xD5 0x21 (by decide) (by decide)

/-- The shift claim exactly as stated: for every register index, shift-right
stores bit 0 of `Vx` (0 or 1) into `VF` and sets `Vx` to `Vx >>> 1`;
shift-left stores bit 7 of `Vx`, as the value 0 or 1, into `VF` and sets
`Vx` to `(Vx <<< 1) % 256`. -/
def C3_claim : Prop :=
  ∀ (s : Chip8) (x y r : Nat), x < 16 →
    (∀ s' cs, execute_instruction s (.ShiftRight8XY6 x y) r = .ok (s', cs) →
      s'.registers 15 = s.registers x &&& 1 ∧ s'.registers x = s.registers x >>> 1) ∧
    (∀ s' cs, execute_instruction s (.ShiftLeft8XYE x y) r = .ok (s', cs) →
      s'.registers 15 = s.registers x >>> 7 &&& 1 ∧
      s'.registers x = s.registers x <<< 1 % 256)

/-- A state with every register holding `0x80`. -/
def s80 : Chip8 := { baseState with registers := fun _ => 0x80 }

/-- A state with every register holding `3`. -/
def s3 : Chip8 := { baseState with registers := fun _ => 3 }

/-- C3 counterexample: the claim fails on the code.  Shift-left with
`V0 = 0x80` leaves `VF = 128` (the code stores `Vx &&& 0x80`, not the bit
value 0 or 1); moreover for `x = 15` the shift overwrites the just-stored
bit: shift-right with `V15 = 3` ends with `VF = 0` although bit 0 of `V15`
is 1. -/
theorem C3_counterexample :
    ¬ C3_claim ∧
    regOfResult (execute_instruction s80 (.ShiftLeft8XYE 0 1) 0) 15 = some 128 ∧
    regOfResult (execute_instruction s3 (.ShiftRight8XY6 15 0) 0) 15 = some 0 := by
  refine ⟨fun h => ?_, rfl, rfl⟩
  have h2 := ((h s80 0 1 0 (by decide)).2 _ _ rfl).1
  exact absurd h2 (by decide)

/-- C3 (amended): shift-right stores bit 0 of `Vx` (0 or 1) into `VF` and
then sets `Vx` to `Vx >>> 1`; shift-left stores `Vx &&& 0x80` (0 or 0x80,
not normalised to 1) into `VF` and then sets `Vx` to `(Vx <<< 1) % 256`;
when `x = 15` the second write reads the just-written `VF`, so `VF` ends as
`(V15 &&& 1) >>> 1` resp. `((V15 &&& 0x80) <<< 1) % 256`; every other
register is untouched and no graphics call is made. -/
theorem C3_amended :
    ∀ (s : Chip8) (x y r : Nat), x < 16 →
      (∀ s' cs, execute_instruction s (.ShiftRight8XY6 x y) r = .ok (s', cs) →
        cs = [] ∧
        s'.registers 15 =
          (if x = 15 then (s.registers x &&& 1) >>> 1 else s.registers x &&& 1) ∧
        s'.registers x =
          (if x = 15 then (s.registers x &&& 1) >>> 1 else s.registers x >>> 1) ∧
        (∀ j, j ≠ x → j ≠ 15 → s'.registers j = s.registers j)) ∧
      (∀ s' cs, execute_instruction s (.ShiftLeft8XYE x y) r = .ok (s', cs) →
        cs = [] ∧
        s'.registers 15 =
          (if x = 15 then (s.registers x &&& 128) <<< 1 % 256 else s.registers x &&& 128) ∧
        s'.registers x =
          (if x = 15 then (s.registers x &&& 128) <<< 1 % 256 else s.registers x <<< 1 % 256) ∧
        (∀ j, j ≠ x → j ≠ 15 → s'.registers j = s.registers j)) := by
  intro s x y r hx
  constructor <;> intro s' cs h <;>
    simp only [execute_instruction] at h <;>
    rw [Except.ok.injEq, Prod.mk.injEq] at h <;>
    (obtain ⟨h1, h2⟩ := h; subst h1; subst h2) <;>
    refine ⟨rfl, ?_, ?_, fun j hj1 hj2 => ?_⟩ <;>
    (simp only [setReg]; split_ifs <;> first | rfl | omega)

/-- C3 witness: the amended shift semantics applied to a state with every
register `3`, shifting register 3 right: `VF = 1` (the bit shifted out) and
`V3 = 1`. -/
theorem C3_witness :
    regOfResult (execute_instruction s3 (.ShiftRight8XY6 3 1) 0) 15 = some 1 ∧
    regOfResult (execute_instruction s3 (.ShiftRight8XY6 3 1) 0) 3 = some 1 := by
  obtain ⟨W, cs, hE⟩ :
      ∃ W cs, execute_instruction s3 (.ShiftRight8XY6 3 1) 0 = .ok (W, cs) :=
    ⟨_, _, rfl⟩
  have h := ((C3_amended s3 3 1 0 (by decide)).1 W cs hE)
  rw [hE]
  simp only [regOfResult]
  rw [h.2.1, h.2.2.1]
  exact ⟨by decide, by decide⟩

/-- The call/return claim exactly as stated: a subroutine call followed by
the matching return, each with the engine's program-counter advance applied,
restores `pc` to exactly its pre-call value. -/
def C4_claim : Prop :=
  ∀ (s : Chip8) (nnn r1 r2 : Nat) (s1 s2 : Chip8) (g1 g2 : List GCall),
    execAdvance s (.SubroutineCall2NNN nnn) r1 = .ok (s1, g1) →
    execAdvance s1 .SubroutineReturn00EE r2 = .ok (s2, g2) →
    s2.pc = s.pc

/-- The state after `call 0x300` from `baseState` (stack holds the pushed
`pc = 512`, `pc` is the call target). -/
def sAfterCall : Chip8 := { baseState with stack := [512], pc := 0x300 }

/-- The state after the matching return: `pc = 514 = 512 + 2`, not `512`. -/
def sAfterRet : Chip8 := { baseState with pc := 514 }

/-- C4 counterexample: from `pc = 512`, `call 0x300` then `return` leaves
`pc = 514`, not the pre-call `512`: the return instruction also receives the
generic `+2` advance (`requires_pc_inc` exempts only jump and call). -/
theorem C4_counterexample :
    ¬ C4_claim ∧
    execAdvance baseState (.SubroutineCall2NNN 0x300) 0 = .ok (sAfterCall, []) ∧
    pcOfResult (execAdvance sAfterCall .SubroutineReturn00EE 0) = some 514 ∧
    baseState.pc = 512 := by
  refine ⟨fun h => ?_, rfl, rfl, rfl⟩
  have h2 := h baseState 0x300 0 0 sAfterCall _ _ _ rfl rfl
  exact absurd h2 (by decide)

/-- C4 (amended): the call pushes the pre-call `pc` and sets `pc = nnn`
(with no `+2`); the return pops it back but, not being exempt from the
generic advance, ends with `pc` equal to the pre-call value plus 2 — the
instruction after the call; only jump and call have advance 0. -/
theorem C4_amended :
    ∀ (s : Chip8) (nnn r1 r2 : Nat) (s1 s2 : Chip8) (g1 g2 : List GCall),
      execAdvance s (.SubroutineCall2NNN nnn) r1 = .ok (s1, g1) →
      execAdvance s1 .SubroutineReturn00EE r2 = .ok (s2, g2) →
      s1.pc = nnn ∧ s1.stack = s.pc :: s.stack ∧
      s2.pc = s.pc + 2 ∧ s2.stack = s.stack ∧
      Instruction.requires_pc_inc .SubroutineReturn00EE = 2 ∧
      (∀ m, Instruction.requires_pc_inc (.SubroutineCall2NNN m) = 0 ∧
            Instruction.requires_pc_inc (.Jump1NNN m) = 0) := by
  intro s nnn r1 r2 s1 s2 g1 g2 h1 h2
  simp only [execAdvance, execute_instruction, Instruction.requires_pc_inc] at h1
  rw [Except.ok.injEq, Prod.mk.injEq] at h1
  obtain ⟨h1a, h1b⟩ := h1
  subst h1a; subst h1b
  simp only [execAdvance, execute_instruction, Instruction.requires_pc_inc] at h2
  rw [Except.ok.injEq, Prod.mk.injEq] at h2
  obtain ⟨h2a, h2b⟩ := h2
  subst h2a; subst h2b
  exact ⟨rfl, rfl, rfl, rfl, rfl, fun m => ⟨rfl, rfl⟩⟩

/-- C4 witness: the amended call/return semantics at the concrete states:
after `call 0x300` the stack holds the pushed `512` and after the return
`pc = 512 + 2`. -/
theorem C4_witness :
    sAfterCall.pc = 0x300 ∧ sAfterCall.stack = baseState.pc :: baseState.stack ∧
    sAfterRet.pc = baseState.pc + 2 ∧ sAfterRet.stack = baseState.stack := by
  have h := C4_amended baseState 0x300 0 0 sAfterCall sAfterRet [] [] rfl rfl
  exact ⟨h.1, h.2.1, h.2.2.1, h.2.2.2.1⟩

/-- The add-to-index claim exactly as stated: `Fx1E` sets `I` to `I + Vx`
and sets `VF` to 1 when the sum exceeds `0xFFF` (12-bit overflow). -/
def C5_claim : Prop :=
  ∀ (s : Chip8) (x r : Nat) (s' : Chip8) (cs : List GCall), x < 16 →
    execute_instruction s (.AddToIndexFX1E x) r = .ok (s', cs) →
    s'.i = s.i + s.registers x ∧
    (0xFFF < s.i + s.registers x → s'.registers 15 = 1)

/-- A state with `I = 0xFFF`, `V0 = 1` and `VF = 0`. -/
def s5 : Chip8 :=
  { baseState with i := 0xFFF, registers := fun j => if j = 0 then 1 else 0 }

/-- C5 counterexample: with `I = 0xFFF` and `V0 = 1`, `Fx1E` sets
`I = 0x1000` but leaves `VF = 0`: the code checks `usize` overflow
(`overflowing_add` at `2 ^ 64`), never the 12-bit boundary. -/
theorem C5_counterexample :
    ¬ C5_claim ∧
    iOfResult (execute_instruction s5 (.AddToIndexFX1E 0) 0) = some 0x1000 ∧
    regOfResult (execute_instruction s5 (.AddToIndexFX1E 0) 0) 15 = some 0 := by
  refine ⟨fun h => ?_, rfl, rfl⟩
  have h2 := (h s5 0 0 _ _ (by decide) rfl).2 (by decide)
  exact absurd h2 (by decide)

/-- C5 (amended): `Fx1E` sets `I` to `(I + Vx) % 2 ^ 64` (the `usize` sum,
not confined to 12 bits) and sets `VF` to 1 only when `I + Vx` overflows
`usize` (`2 ^ 64 ≤ I + Vx`), leaving `VF` untouched otherwise; in particular
exceeding `0xFFF` does not set `VF`. -/
theorem C5_amended :
    ∀ (s : Chip8) (x r : Nat) (s' : Chip8) (cs : List GCall), x < 16 →
      execute_instruction s (.AddToIndexFX1E x) r = .ok (s', cs) →
      cs = [] ∧
      s'.i = (s.i + s.registers x) % USIZE_WRAP ∧
      s'.registers 15 =
        (if USIZE_WRAP ≤ s.i + s.registers x then 1 else s.registers 15) ∧
      (∀ j, j ≠ 15 → s'.registers j = s.registers j) := by
  intro s x r s' cs hx h
  simp only [execute_instruction] at h
  rw [Except.ok.injEq, Prod.mk.injEq] at h
  obtain ⟨h1, h2⟩ := h
  subst h1; subst h2
  refine ⟨rfl, rfl, ?_, fun j hj => ?_⟩
  · split_ifs <;> simp [setReg]
  · split_ifs <;> simp [setReg, hj]

/-- The expected result state of the C5 witness: `I` incremented past the
12-bit boundary, registers unchanged. -/
def s5r : Chip8 := { s5 with i := 4096 }

/-- C5 witness: the amended add-to-index semantics at `I = 0xFFF`, `V0 = 1`:
`I` becomes `4096` and `VF` stays `0`. -/
theorem C5_witness : s5r.i = 4096 ∧ s5r.registers 15 = 0 := by
  have h := C5_amended s5 0 0 s5r [] (by decide) rfl
  constructor
  · rw [h.2.1]; decide
  · rw [h.2.2.1]; decide

/-- C8: `store_in_ram` errors exactly when the ROM is longer than
`RAM_SIZE - PROGRAM_START` bytes; on error the whole machine state is
returned untouched (no partial load); on success the ROM bytes land at
offset `PROGRAM_START` with every other memory byte and every other state
field unchanged. -/
theorem C8_store_in_ram_spec :
    ∀ (s : Chip8) (rom : List Nat),
      ((store_in_ram s rom).2 = .error "data is too big to fit into the ram" ↔
        RAM_SIZE - PROGRAM_START < rom.length) ∧
      ((store_in_ram s rom).2 = .ok () ↔ rom.length ≤ RAM_SIZE - PROGRAM_START) ∧
      (RAM_SIZE - PROGRAM_START < rom.length → (store_in_ram s rom).1 = s) ∧
      ({ (store_in_ram s rom).1 with ram := s.ram } = s) ∧
      (rom.length ≤ RAM_SIZE - PROGRAM_START →
        ∀ a, (store_in_ram s rom).1.ram a =
          if PROGRAM_START ≤ a ∧ a < PROGRAM_START + rom.length then
            rom.getD (a - PROGRAM_START) 0
          else s.ram a) := by
  intro s rom
  by_cases hbig : RAM_SIZE < rom.length + PROGRAM_START
  · rw [show store_in_ram s rom = (s, .error "data is too big to fit into the ram")
        from if_pos hbig]
    have hlen : RAM_SIZE - PROGRAM_START < rom.length := by
      simp only [RAM_SIZE, PROGRAM_START] at hbig ⊢; omega
    refine ⟨⟨fun _ => hlen, fun _ => rfl⟩, ⟨fun h => ?_, fun h => ?_⟩,
        fun _ => rfl, rfl, fun h _ => ?_⟩
    · exact absurd h (by simp)
    · omega
    · omega
  · rw [show store_in_ram s rom =
        ({ s with ram := fun a =>
             if PROGRAM_START ≤ a ∧ a < PROGRAM_START + rom.length then
               rom.getD (a - PROGRAM_START) 0
             else s.ram a }, .ok ())
        from if_neg hbig]
    have hlen : rom.length ≤ RAM_SIZE - PROGRAM_START := by
      simp only [RAM_SIZE, PROGRAM_START] at hbig ⊢; omega
    refine ⟨⟨fun h => absurd h (by simp), fun h => ?_⟩,
        ⟨fun _ => hlen, fun _ => rfl⟩, fun h => ?_, rfl, fun _ a => rfl⟩
    · omega
    · omega

/-- A ROM one byte too long: 3585 bytes. -/
def romBig : List Nat := List.replicate 3585 7

/-- C8 witness: the 3585-byte ROM is rejected with the state untouched,
while the two-byte ROM `[9, 8]` is accepted and lands at bytes 512 and 513,
leaving byte 514 alone. -/
theorem C8_witness :
    (store_in_ram baseState romBig).2 = .error "data is too big to fit into the ram" ∧
    (store_in_ram baseState romBig).1 = baseState ∧
    (store_in_ram baseState [9, 8]).2 = .ok () ∧
    (store_in_ram baseState [9, 8]).1.ram 512 = 9 ∧
    (store_in_ram baseState [9, 8]).1.ram 513 = 8 ∧
    (store_in_ram baseState [9, 8]).1.ram 514 = baseState.ram 514 := by
  have hlenBig : RAM_SIZE - PROGRAM_START < romBig.length := by
    show RAM_SIZE - PROGRAM_START < (List.replicate 3585 7).length
    rw [List.length_replicate]
    decide
  have h1 := C8_store_in_ram_spec baseState romBig
  have h2 := C8_store_in_ram_spec baseState [9, 8]
  have hlen2 : ([9, 8] : List Nat).length ≤ RAM_SIZE - PROGRAM_START := by
    simp [RAM_SIZE, PROGRAM_START]
  refine ⟨h1.1.mpr hlenBig, h1.2.2.1 hlenBig, h2.2.1.mpr hlen2, ?_, ?_, ?_⟩
  · rw [h2.2.2.2.2 hlen2 512]; rfl
  · rw [h2.2.2.2.2 hlen2 513]; rfl
  · rw [h2.2.2.2.2 hlen2 514]; rfl

/-- C9: executing the subroutine return with an empty call stack is a fatal
error, not a silent no-op: `execute_instruction` fails with the stack
underflow error (so no new state is produced and the program counter is
untouched), and a whole engine cycle fetching that return propagates the
same fatal error. -/
theorem C9_return_underflow_fatal :
    ∀ (s : Chip8) (r : Nat), s.stack = [] →
      execute_instruction s .SubroutineReturn00EE r =
        .error "failed to return from subroutine: stack underflow" ∧
      (fetch_and_decode_next_instruction s = .ok .SubroutineReturn00EE →
        cycle s r = .error "failed to return from subroutine: stack underflow") := by
  intro s r hs
  have hex : execute_instruction s .SubroutineReturn00EE r =
      .error "failed to return from subroutine: stack underflow" := by
    simp only [execute_instruction, hs]
  exact ⟨hex, fun hf => by simp only [cycle, hf, execAdvance, hex]⟩

/-- A machine whose RAM holds the opcode `00EE` (return) at `pc = 512`,
with an empty call stack. -/
def s9 : Chip8 := { baseState with ram := fun a => if a = 513 then 0xEE else 0 }

/-- C9 witness: the underflow error at the concrete empty-stack state, both
for the bare instruction and for the full cycle that fetches `00EE`. -/
theorem C9_witness :
    execute_instruction s9 .SubroutineReturn00EE 0 =
      .error "failed to return from subroutine: stack underflow" ∧
    cycle s9 0 = .error "failed to return from subroutine: stack underflow" := by
  have h := C9_return_underflow_fatal s9 0 rfl
  exact ⟨h.1, h.2 rfl⟩

/-- C10: a cycle that fetches `Fx0A` records the pending wait and still
advances `pc` by 2 in that same cycle (`Fx0A` is not exempt from the generic
advance); while the wait is pending the instruction loop fetches nothing
(any number of cycles leaves the state untouched); a key press stores the
key in the recorded register, clears the wait and leaves `pc` at the
advanced value, so execution resumes at the instruction after `Fx0A` and the
blocked instruction is never fetched again. -/
theorem C10_get_key_blocks_after_advance :
    ∀ (s : Chip8) (x r : Nat) (s' : Chip8) (g : List GCall) (a : List ACall),
      fetch_and_decode_next_instruction s = .ok (.GetKeyFX0A x) →
      cycle s r = .ok (s', g, a) →
      Instruction.requires_pc_inc (.GetKeyFX0A x) = 2 ∧
      s'.pc = s.pc + 2 ∧
      s'.waiting_for_input = some x ∧
      (∀ k rnd, runCycles k s' rnd = .ok (s', [], [])) ∧
      (∀ key,
        (handle_key_pressed s' key).pc = s.pc + 2 ∧
        (handle_key_pressed s' key).waiting_for_input = none ∧
        (handle_key_pressed s' key).registers x = key ∧
        (handle_key_pressed s' key).key_pressed = some key) := by
  intro s x r s' g a hf hc
  simp only [cycle, hf, execAdvance, execute_instruction,
    Instruction.requires_pc_inc] at hc
  have hw : ∀ (t : Chip8), t.waiting_for_input = some x →
      t.pc = s.pc + 2 → Instruction.requires_pc_inc (.GetKeyFX0A x) = 2 ∧
      t.pc = s.pc + 2 ∧ t.waiting_for_input = some x ∧
      (∀ k rnd, runCycles k t rnd = .ok (t, [], [])) ∧
      (∀ key,
        (handle_key_pressed t key).pc = s.pc + 2 ∧
        (handle_key_pressed t key).waiting_for_input = none ∧
        (handle_key_pressed t key).registers x = key ∧
        (handle_key_pressed t key).key_pressed = some key) := by
    intro t htw htp
    refine ⟨rfl, htp, htw, fun k rnd => ?_, fun key => ?_⟩
    · cases k with
      | zero => rfl
      | succ m => simp only [runCycles, htw, Option.isSome_some, if_pos]
    · have hk : handle_key_pressed t key =
          { t with key_pressed := some key,
                   registers := setReg t.registers x key,
                   waiting_for_input := none } := by
        simp only [handle_key_pressed, htw]
      rw [hk]
      exact ⟨htp, rfl, by simp [setReg], rfl⟩
  split_ifs at hc <;>
    (rw [Except.ok.injEq, Prod.mk.injEq] at hc
     obtain ⟨hc1, -⟩ := hc
     subst hc1
     exact hw _ rfl rfl)

/-- A machine whose RAM holds the opcode `F00A` (get-key into `V0`) at
`pc = 512`. -/
def s10 : Chip8 :=
  { baseState with ram := fun a => if a = 512 then 0xF0 else if a = 513 then 0x0A else 0 }

/-- The state after one cycle of `s10`: `pc` already advanced past the
`Fx0A`, wait pending on register 0. -/
def s10w : Chip8 := { s10 with pc := 514, waiting_for_input := some 0 }

/-- C10 witness: the get-key cycle at the concrete machine `s10`: `pc`
advances to 514 in the same cycle, five further cycles change nothing, and
pressing key 7 resolves the wait with `pc` still 514. -/
theorem C10_witness :
    s10w.pc = s10.pc + 2 ∧ s10w.waiting_for_input = some 0 ∧
    runCycles 5 s10w (fun _ => 0) = .ok (s10w, [], []) ∧
    (handle_key_pressed s10w 7).registers 0 = 7 ∧
    (handle_key_pressed s10w 7).waiting_for_input = none ∧
    (handle_key_pressed s10w 7).pc = s10.pc + 2 := by
  have h := C10_get_key_blocks_after_advance s10 0 0 s10w [] [] rfl rfl
  exact ⟨h.2.1, h.2.2.1, h.2.2.2.1 5 (fun _ => 0), (h.2.2.2.2 7).2.2.1,
    (h.2.2.2.2 7).2.1, (h.2.2.2.2 7).1⟩

/-- Audio-call traces relative to the beeping flag: `AltFrom b trace b'`
holds when, starting with beeping flag `b`, the trace strictly alternates —
`start_beep` exactly from a non-beeping state, `stop_beep` exactly from a
beeping state — and ends in flag state `b'`.  In particular no call occurs
twice in a row. -/
def AltFrom : Bool → List ACall → Bool → Prop
  | b, [], b' => b = b'
  | b, e :: t, b' =>
    e = (if b then ACall.stop_beep else ACall.start_beep) ∧ AltFrom (!b) t b'

/-- `AltFrom` traces compose. -/
theorem AltFrom_append {b1 b2 b3 : Bool} {l1 l2 : List ACall}
    (h1 : AltFrom b1 l1 b2) (h2 : AltFrom b2 l2 b3) : AltFrom b1 (l1 ++ l2) b3 := by
  induction l1 generalizing b1 with
  | nil =>
    have hb : b1 = b2 := h1
    rw [List.nil_append, hb]
    exact h2
  | cons e t ih =>
    obtain ⟨he, ht⟩ := h1
    exact ⟨he, ih ht⟩

/-- No instruction of the engine writes the beeping flag. -/
theorem execute_beeping (s : Chip8) (inst : Instruction) (r : Nat)
    (p : Chip8 × List GCall) (h : execute_instruction s inst r = .ok p) :
    p.1.beeping = s.beeping := by
  cases inst <;> simp only [execute_instruction] at h <;>
    (try split_ifs at h) <;>
    (try split at h) <;>
    first
      | (rw [Except.ok.injEq] at h; subst h; split_ifs <;> rfl)
      | (rw [Except.ok.injEq] at h; subst h; rfl)
      | cases h

/-- One engine cycle re-establishes `beeping = (sound_timer > 0)` and emits
an audio trace that alternates correctly from the pre-cycle flag. -/
theorem cycle_beeping (s : Chip8) (r : Nat) (s' : Chip8) (g : List GCall)
    (a : List ACall) (h : cycle s r = .ok (s', g, a)) :
    s'.beeping = decide (0 < s'.sound_timer) ∧ AltFrom s.beeping a s'.beeping := by
  simp only [cycle] at h
  split at h
  · cases h
  · rename_i inst hf
    split at h
    · cases h
    · rename_i s2 g2 hA
      have hb : s2.beeping = s.beeping := by
        simp only [execAdvance] at hA
        split at hA
        · cases hA
        · rename_i q hq
          rw [Except.ok.injEq, Prod.mk.injEq] at hA
          obtain ⟨hA1, -⟩ := hA
          rw [← hA1]
          exact execute_beeping s inst r _ hq
      split_ifs at h with h1 h2
      · rw [Except.ok.injEq, Prod.mk.injEq, Prod.mk.injEq] at h
        obtain ⟨hs', -, ha⟩ := h
        subst hs'; subst ha
        have hsb : s.beeping = false := by rw [← hb]; exact h1.2
        constructor
        · simp [h1.1]
        · rw [hsb]
          exact ⟨rfl, rfl⟩
      · rw [Except.ok.injEq, Prod.mk.injEq, Prod.mk.injEq] at h
        obtain ⟨hs', -, ha⟩ := h
        subst hs'; subst ha
        have hsb : s.beeping = true := by rw [← hb]; exact h2.2
        constructor
        · simp [h2.1]
        · rw [hsb]
          exact ⟨rfl, rfl⟩
      · rw [Except.ok.injEq, Prod.mk.injEq, Prod.mk.injEq] at h
        obtain ⟨hs', -, ha⟩ := h
        subst hs'; subst ha
        constructor
        · rcases Bool.eq_false_or_eq_true s2.beeping with hB | hB <;>
            simp [hB] at h1 h2 ⊢ <;> omega
        · show AltFrom s.beeping [] s2.beeping
          exact hb.symm

/-- The instruction loop emits an alternating audio trace. -/
theorem runCycles_alt :
    ∀ (k : Nat) (s : Chip8) (rnd : Nat → Nat) (s' : Chip8) g a,
      runCycles k s rnd = .ok (s', g, a) → AltFrom s.beeping a s'.beeping := by
  intro k
  induction k with
  | zero =>
    intro s rnd s' g a h
    rw [runCycles, Except.ok.injEq, Prod.mk.injEq, Prod.mk.injEq] at h
    obtain ⟨hs', -, ha⟩ := h
    subst hs'; subst ha
    show AltFrom s.beeping [] s.beeping
    rfl
  | succ m ih =>
    intro s rnd s' g a h
    rw [runCycles] at h
    split_ifs at h with hw
    · rw [Except.ok.injEq, Prod.mk.injEq, Prod.mk.injEq] at h
      obtain ⟨hs', -, ha⟩ := h
      subst hs'; subst ha
      show AltFrom s.beeping [] s.beeping
      rfl
    · split at h
      · cases h
      · rename_i s1 g1 a1 hc
        split at h
        · cases h
        · rename_i s2 g2 a2 hrec
          rw [Except.ok.injEq, Prod.mk.injEq, Prod.mk.injEq] at h
          obtain ⟨hs', -, ha⟩ := h
          subst hs'; subst ha
          exact AltFrom_append (cycle_beeping s (rnd 0) s1 g1 a1 hc).2
            (ih s1 _ s2 g2 a2 hrec)

/-- Once a cycle has run (or the invariant already held), the loop leaves
`beeping` tracking `sound_timer > 0`. -/
theorem runCycles_beep_inv :
    ∀ (k : Nat) (s : Chip8) (rnd : Nat → Nat) (s' : Chip8) g a,
      runCycles k s rnd = .ok (s', g, a) →
      (s.beeping = decide (0 < s.sound_timer) ∨
        (s.waiting_for_input = none ∧ 1 ≤ k)) →
      s'.beeping = decide (0 < s'.sound_timer) := by
  intro k
  induction k with
  | zero =>
    intro s rnd s' g a h hinv
    rw [runCycles, Except.ok.injEq, Prod.mk.injEq] at h
    obtain ⟨hs', -⟩ := h
    subst hs'
    rcases hinv with hinv | ⟨-, hk⟩
    · exact hinv
    · omega
  | succ m ih =>
    intro s rnd s' g a h hinv
    rw [runCycles] at h
    split_ifs at h with hw
    · rw [Except.ok.injEq, Prod.mk.injEq] at h
      obtain ⟨hs', -⟩ := h
      subst hs'
      rcases hinv with hinv | ⟨hnone, -⟩
      · exact hinv
      · rw [hnone] at hw
        simp at hw
    · split at h
      · cases h
      · rename_i s1 g1 a1 hc
        split at h
        · cases h
        · rename_i s2 g2 a2 hrec
          rw [Except.ok.injEq, Prod.mk.injEq] at h
          obtain ⟨hs', -⟩ := h
          subst hs'
          exact ih s1 _ s2 g2 a2 hrec (Or.inl (cycle_beeping s (rnd 0) s1 g1 a1 hc).1)

/-- C7: on every tick both timers are decremented by exactly one, saturating
at zero (a zero timer stays zero: `Nat` subtraction cannot wrap), and this
is the whole tick when the machine waits for a key; the audio capability is
driven purely by 0/non-zero transition edges: every tick's audio trace
alternates starting from the incoming beeping flag (`start_beep` exactly
when not beeping, `stop_beep` exactly when beeping, so no call ever happens
twice in a row, also across consecutive ticks), and any tick that executes
at least one cycle leaves `beeping` equal to `sound_timer > 0`. -/
theorem C7_timers_saturate_and_audio_edges :
    (∀ s : Chip8,
      (decrease_timers s).delay_timer = s.delay_timer - 1 ∧
      (decrease_timers s).sound_timer = s.sound_timer - 1 ∧
      (s.delay_timer = 0 → (decrease_timers s).delay_timer = 0) ∧
      (s.sound_timer = 0 → (decrease_timers s).sound_timer = 0)) ∧
    (∀ (s : Chip8) (rnd : Nat → Nat), s.waiting_for_input.isSome = true →
      tick s rnd = .ok (decrease_timers s, [], [])) ∧
    (∀ (s : Chip8) (rnd : Nat → Nat) (s' : Chip8) g a,
      tick s rnd = .ok (s', g, a) → AltFrom s.beeping a s'.beeping) ∧
    (∀ (s : Chip8) (rnd : Nat → Nat) (s' : Chip8) g a,
      tick s rnd = .ok (s', g, a) → s.waiting_for_input = none →
      1 ≤ s.clock / FPS → s'.beeping = decide (0 < s'.sound_timer)) ∧
    (∀ (s : Chip8) (rnd rnd2 : Nat → Nat) (s1 s2 : Chip8) g1 g2 a1 a2,
      tick s rnd = .ok (s1, g1, a1) → tick s1 rnd2 = .ok (s2, g2, a2) →
      AltFrom s.beeping (a1 ++ a2) s2.beeping) := by
  refine ⟨fun s => ?_, fun s rnd h => ?_, fun s rnd s' g a h => ?_,
      fun s rnd s' g a h hnone hk => ?_,
      fun s rnd rnd2 s1 s2 g1 g2 a1 a2 h1 h2 => ?_⟩
  · refine ⟨?_, ?_, fun h0 => ?_, fun h0 => ?_⟩ <;>
      (simp only [decrease_timers, saturating_sub]; split_ifs <;> omega)
  · show runCycles (s.clock / FPS) (decrease_timers s) rnd = _
    cases hk : s.clock / FPS with
    | zero => rfl
    | succ m =>
      simp only [runCycles]
      rw [if_pos (show (decrease_timers s).waiting_for_input.isSome = true from h)]
  · exact runCycles_alt (s.clock / FPS) (decrease_timers s) rnd s' g a h
  · exact runCycles_beep_inv (s.clock / FPS) (decrease_timers s) rnd s' g a h
      (Or.inr ⟨show (decrease_timers s).waiting_for_input = none from hnone, hk⟩)
  · exact AltFrom_append
      (runCycles_alt (s.clock / FPS) (decrease_timers s) rnd s1 g1 a1 h1)
      (runCycles_alt (s1.clock / FPS) (decrease_timers s1) rnd2 s2 g2 a2 h2)

/-- A waiting machine with a non-zero delay timer. -/
def sW7 : Chip8 := { baseState with waiting_for_input := some 1, delay_timer := 3 }

/-- A running machine with `sound_timer = 5` and a `6005` (load-immediate)
opcode at `pc = 512`. -/
def sT : Chip8 :=
  { baseState with
    ram := fun a => if a = 512 then 0x60 else if a = 513 then 5 else 0,
    sound_timer := 5 }

/-- The state after one tick of `sT`: both timers decremented, `V0` loaded,
`pc` advanced, beeping switched on by the audio edge check. -/
def sT' : Chip8 :=
  { sT with
    sound_timer := 4,
    registers := setReg sT.registers 0 5,
    pc := 514,
    beeping := true }

/-- C7 witness: a tick of the waiting machine `sW7` only decrements the
timers and makes no capability call, and the tick of the running machine
`sT` (whose audio trace is exactly one `start_beep`) leaves `beeping`
tracking `sound_timer > 0`. -/
theorem C7_witness :
    tick sW7 (fun _ => 0) = .ok (decrease_timers sW7, [], []) ∧
    sT'.beeping = decide (0 < sT'.sound_timer) := by
  constructor
  · exact C7_timers_saturate_and_audio_edges.2.1 sW7 (fun _ => 0) rfl
  · exact C7_timers_saturate_and_audio_edges.2.2.2.1 sT (fun _ => 0) sT' []
      [ACall.start_beep] rfl rfl (by decide)

theorem setPixel_self (px : Nat → Nat → Bool) (y x : Nat) (b : Bool) :
    setPixel px y x b y x = b := by
  simp [setPixel]

theorem setPixel_ne (px : Nat → Nat → Bool) (y x : Nat) (b : Bool) (cy cx : Nat)
    (h : cy ≠ y ∨ cx ≠ x) : setPixel px y x b cy cx = px cy cx := by
  simp only [setPixel]
  rw [if_neg]
  rintro ⟨h1, h2⟩
  rcases h with h | h
  · exact h h1
  · exact h h2

theorem drawBits_spec (row : Nat) (y : Nat) (hy : y < TERMINAL_HEIGHT) :
    ∀ (bits : List Nat) (x : Nat) (px px' : Nat → Nat → Bool)
      (calls : List GCall) (col : Bool),
      x < TERMINAL_WIDTH →
      drawBits row bits x y px = .ok (px', calls, col) →
      (∀ cy cx, (cy ≠ y ∨ cx < x ∨ TERMINAL_WIDTH ≤ cx ∨ x + bits.length ≤ cx) →
        px' cy cx = px cy cx) ∧
      (∀ cx cy, calls.count (GCall.draw cx cy) =
        if cy = y ∧ px cy cx = false ∧ px' cy cx = true then 1 else 0) ∧
      (∀ cx cy, calls.count (GCall.clear cx cy) =
        if cy = y ∧ px cy cx = true ∧ px' cy cx = false then 1 else 0) ∧
      col = calls.any isClear := by
  intro bits
  induction bits with
  | nil =>
    intro x px px' calls col hx h
    simp only [drawBits] at h
    rw [Except.ok.injEq, Prod.mk.injEq, Prod.mk.injEq] at h
    obtain ⟨h1, h2, h3⟩ := h
    subst h1; subst h2; subst h3
    refine ⟨fun cy cx hc => rfl, fun cx cy => ?_, fun cx cy => ?_, rfl⟩ <;>
      (rw [List.count_nil]
       split_ifs with hc
       · obtain ⟨-, hA, hB⟩ := hc
         rw [hA] at hB
         cases hB
       · rfl)
  | cons i rest ih =>
    intro x px px' calls col hx h
    simp only [drawBits] at h
    split at h
    · cases h
    · rename_i px1 cs1 col1 hstep
      have hio : isPixelOn px x y = .ok (px y x) := by
        have hco : check_coordinates x y = .ok () := by
          simp only [check_coordinates]
          rw [if_neg (by omega), if_neg (by omega)]
        simp only [isPixelOn, hco]
      by_cases hbit : (row >>> i) &&& 1 = 1
      · -- bit set: the cell at (x, y) is XOR-toggled
        simp only [drawBitStep, if_pos hbit, hio] at hstep
        cases hp : px y x <;> rw [hp] at hstep <;> simp at hstep <;>
          obtain ⟨e1, e2, e3⟩ := hstep <;> subst e1 <;> subst e2 <;> subst e3
        · -- px y x = false: a draw call, cell switched on
          split_ifs at h with hxw
          · rw [Except.ok.injEq, Prod.mk.injEq, Prod.mk.injEq] at h
            obtain ⟨f1, f2, f3⟩ := h
            subst f1; subst f2; subst f3
            refine ⟨?_, ?_, ?_, by simp [isClear]⟩
            · intro cy cx hc
              simp only [List.length_cons] at hc
              apply setPixel_ne
              rcases hc with hc | hc | hc | hc
              · exact Or.inl hc
              all_goals exact Or.inr (by omega)
            · intro cx cy
              by_cases hcy : cy = y
              · by_cases hcx : cx = x
                · simp [List.count_cons, List.count_nil, hcy, hcx, hp, setPixel_self]
                · rw [setPixel_ne _ _ _ _ _ _ (Or.inr hcx)]
                  cases hq : px cy cx <;> simp [List.count_cons, List.count_nil, hcy, hq, Ne.symm hcx]
              · rw [setPixel_ne _ _ _ _ _ _ (Or.inl hcy)]
                cases hq : px cy cx <;> simp [List.count_cons, List.count_nil, hq, hcy, Ne.symm hcy]
            · intro cx cy
              by_cases hcy : cy = y
              · by_cases hcx : cx = x
                · simp [List.count_cons, List.count_nil, hcy, hcx, hp, setPixel_self]
                · rw [setPixel_ne _ _ _ _ _ _ (Or.inr hcx)]
                  cases hq : px cy cx <;> simp [List.count_cons, List.count_nil, hcy, hq, Ne.symm hcx]
              · rw [setPixel_ne _ _ _ _ _ _ (Or.inl hcy)]
                cases hq : px cy cx <;> simp [List.count_cons, List.count_nil, hq, hcy, Ne.symm hcy]
          · have hx1 : x + 1 < TERMINAL_WIDTH := by omega
            split at h
            · cases h
            · rename_i px2 cs2 col2 hrec
              rw [Except.ok.injEq, Prod.mk.injEq, Prod.mk.injEq] at h
              obtain ⟨f1, f2, f3⟩ := h
              subst f1; subst f2; subst f3
              obtain ⟨IH1, IH2, IH3, IH4⟩ :=
                ih (x + 1) (setPixel px y x true) px2 cs2 col2 hx1 hrec
              have hpx2 : px2 y x = true := by
                rw [IH1 y x (Or.inr (Or.inl (by omega))), setPixel_self]
              refine ⟨?_, ?_, ?_, by rw [List.any_append, IH4]; simp [isClear]⟩
              · intro cy cx hc
                simp only [List.length_cons] at hc
                have step1 : px2 cy cx = setPixel px y x true cy cx := by
                  apply IH1
                  rcases hc with hc | hc | hc | hc
                  · exact Or.inl hc
                  · exact Or.inr (Or.inl (by omega))
                  · exact Or.inr (Or.inr (Or.inl hc))
                  · exact Or.inr (Or.inr (Or.inr (by omega)))
                have step2 : setPixel px y x true cy cx = px cy cx := by
                  apply setPixel_ne
                  rcases hc with hc | hc | hc | hc
                  · exact Or.inl hc
                  all_goals exact Or.inr (by omega)
                rw [step1, step2]
              · intro cx cy
                rw [List.count_append, IH2 cx cy]
                by_cases hcy : cy = y
                · by_cases hcx : cx = x
                  · simp [List.count_cons, List.count_nil, hcy, hcx, hp, setPixel_self, hpx2]
                  · rw [setPixel_ne _ _ _ _ _ _ (Or.inr hcx)]
                    simp [List.count_cons, List.count_nil, hcy, Ne.symm hcx]
                · rw [setPixel_ne _ _ _ _ _ _ (Or.inl hcy)]
                  simp [List.count_cons, List.count_nil, hcy, Ne.symm hcy]
              · intro cx cy
                rw [List.count_append, IH3 cx cy]
                by_cases hcy : cy = y
                · by_cases hcx : cx = x
                  · simp [List.count_cons, List.count_nil, hcy, hcx, hp, setPixel_self, hpx2]
                  · rw [setPixel_ne _ _ _ _ _ _ (Or.inr hcx)]
                    simp [List.count_cons, List.count_nil, hcy, Ne.symm hcx]
                · rw [setPixel_ne _ _ _ _ _ _ (Or.inl hcy)]
                  simp [List.count_cons, List.count_nil, hcy, Ne.symm hcy]
        · -- px y x = true: a clear call (collision), cell switched off
          split_ifs at h with hxw
          · rw [Except.ok.injEq, Prod.mk.injEq, Prod.mk.injEq] at h
            obtain ⟨f1, f2, f3⟩ := h
            subst f1; subst f2; subst f3
            refine ⟨?_, ?_, ?_, by simp [isClear]⟩
            · intro cy cx hc
              simp only [List.length_cons] at hc
              apply setPixel_ne
              rcases hc with hc | hc | hc | hc
              · exact Or.inl hc
              all_goals exact Or.inr (by omega)
            · intro cx cy
              by_cases hcy : cy = y
              · by_cases hcx : cx = x
                · simp [List.count_cons, List.count_nil, hcy, hcx, hp, setPixel_self]
                · rw [setPixel_ne _ _ _ _ _ _ (Or.inr hcx)]
                  cases hq : px cy cx <;> simp [List.count_cons, List.count_nil, hcy, hq, Ne.symm hcx]
              · rw [setPixel_ne _ _ _ _ _ _ (Or.inl hcy)]
                cases hq : px cy cx <;> simp [List.count_cons, List.count_nil, hq, hcy, Ne.symm hcy]
            · intro cx cy
              by_cases hcy : cy = y
              · by_cases hcx : cx = x
                · simp [List.count_cons, List.count_nil, hcy, hcx, hp, setPixel_self]
                · rw [setPixel_ne _ _ _ _ _ _ (Or.inr hcx)]
                  cases hq : px cy cx <;> simp [List.count_cons, List.count_nil, hcy, hq, Ne.symm hcx]
              · rw [setPixel_ne _ _ _ _ _ _ (Or.inl hcy)]
                cases hq : px cy cx <;> simp [List.count_cons, List.count_nil, hq, hcy, Ne.symm hcy]
          · have hx1 : x + 1 < TERMINAL_WIDTH := by omega
            split at h
            · cases h
            · rename_i px2 cs2 col2 hrec
              rw [Except.ok.injEq, Prod.mk.injEq, Prod.mk.injEq] at h
              obtain ⟨f1, f2, f3⟩ := h
              subst f1; subst f2; subst f3
              obtain ⟨IH1, IH2, IH3, IH4⟩ :=
                ih (x + 1) (setPixel px y x false) px2 cs2 col2 hx1 hrec
              have hpx2 : px2 y x = false := by
                rw [IH1 y x (Or.inr (Or.inl (by omega))), setPixel_self]
              refine ⟨?_, ?_, ?_, by rw [List.any_append, IH4]; simp [isClear]⟩
              · intro cy cx hc
                simp only [List.length_cons] at hc
                have step1 : px2 cy cx = setPixel px y x false cy cx := by
                  apply IH1
                  rcases hc with hc | hc | hc | hc
                  · exact Or.inl hc
                  · exact Or.inr (Or.inl (by omega))
                  · exact Or.inr (Or.inr (Or.inl hc))
                  · exact Or.inr (Or.inr (Or.inr (by omega)))
                have step2 : setPixel px y x false cy cx = px cy cx := by
                  apply setPixel_ne
                  rcases hc with hc | hc | hc | hc
                  · exact Or.inl hc
                  all_goals exact Or.inr (by omega)
                rw [step1, step2]
              · intro cx cy
                rw [List.count_append, IH2 cx cy]
                by_cases hcy : cy = y
                · by_cases hcx : cx = x
                  · simp [List.count_cons, List.count_nil, hcy, hcx, hp, setPixel_self, hpx2]
                  · rw [setPixel_ne _ _ _ _ _ _ (Or.inr hcx)]
                    simp [List.count_cons, List.count_nil, hcy, Ne.symm hcx]
                · rw [setPixel_ne _ _ _ _ _ _ (Or.inl hcy)]
                  simp [List.count_cons, List.count_nil, hcy, Ne.symm hcy]
              · intro cx cy
                rw [List.count_append, IH3 cx cy]
                by_cases hcy : cy = y
                · by_cases hcx : cx = x
                  · simp [List.count_cons, List.count_nil, hcy, hcx, hp, setPixel_self, hpx2]
                  · rw [setPixel_ne _ _ _ _ _ _ (Or.inr hcx)]
                    simp [List.count_cons, List.count_nil, hcy, Ne.symm hcx]
                · rw [setPixel_ne _ _ _ _ _ _ (Or.inl hcy)]
                  simp [List.count_cons, List.count_nil, hcy, Ne.symm hcy]
      · -- bit clear: nothing is drawn at this column
        simp only [drawBitStep, if_neg hbit] at hstep
        rw [Except.ok.injEq, Prod.mk.injEq, Prod.mk.injEq] at hstep
        obtain ⟨e1, e2, e3⟩ := hstep
        subst e1; subst e2; subst e3
        split_ifs at h with hxw
        · rw [Except.ok.injEq, Prod.mk.injEq, Prod.mk.injEq] at h
          obtain ⟨f1, f2, f3⟩ := h
          subst f1; subst f2; subst f3
          refine ⟨fun cy cx hc => rfl, fun cx cy => ?_, fun cx cy => ?_, rfl⟩ <;>
            (rw [List.count_nil]
             split_ifs with hc
             · obtain ⟨-, hA, hB⟩ := hc
               rw [hA] at hB
               cases hB
             · rfl)
        · have hx1 : x + 1 < TERMINAL_WIDTH := by omega
          split at h
          · cases h
          · rename_i px2 cs2 col2 hrec
            rw [Except.ok.injEq, Prod.mk.injEq, Prod.mk.injEq] at h
            obtain ⟨f1, f2, f3⟩ := h
            subst f1; subst f2; subst f3
            obtain ⟨IH1, IH2, IH3, IH4⟩ := ih (x + 1) px px2 cs2 col2 hx1 hrec
            refine ⟨?_, fun cx cy => by rw [List.nil_append]; exact IH2 cx cy,
              fun cx cy => by rw [List.nil_append]; exact IH3 cx cy,
              by rw [List.nil_append, IH4]; simp⟩
            intro cy cx hc
            simp only [List.length_cons] at hc
            apply IH1
            rcases hc with hc | hc | hc | hc
            · exact Or.inl hc
            · exact Or.inr (Or.inl (by omega))
            · exact Or.inr (Or.inr (Or.inl hc))
            · exact Or.inr (Or.inr (Or.inr (by omega)))

theorem drawRows_spec (x0 : Nat) (hx0 : x0 < TERMINAL_WIDTH) :
    ∀ (rows : List Nat) (y : Nat) (px px' : Nat → Nat → Bool)
      (calls : List GCall) (col : Bool),
      y < TERMINAL_HEIGHT →
      drawRows x0 rows y px = .ok (px', calls, col) →
      (∀ cy cx, (cy < y ∨ TERMINAL_HEIGHT ≤ cy ∨ y + rows.length ≤ cy ∨
                 cx < x0 ∨ TERMINAL_WIDTH ≤ cx ∨ x0 + 8 ≤ cx) →
        px' cy cx = px cy cx) ∧
      (∀ cx cy, calls.count (GCall.draw cx cy) =
        if px cy cx = false ∧ px' cy cx = true then 1 else 0) ∧
      (∀ cx cy, calls.count (GCall.clear cx cy) =
        if px cy cx = true ∧ px' cy cx = false then 1 else 0) ∧
      col = calls.any isClear := by
  intro rows
  induction rows with
  | nil =>
    intro y px px' calls col hy h
    simp only [drawRows] at h
    rw [Except.ok.injEq, Prod.mk.injEq, Prod.mk.injEq] at h
    obtain ⟨h1, h2, h3⟩ := h
    subst h1; subst h2; subst h3
    refine ⟨fun cy cx hc => rfl, fun cx cy => ?_, fun cx cy => ?_, rfl⟩ <;>
      (rw [List.count_nil]
       split_ifs with hc
       · obtain ⟨hA, hB⟩ := hc
         rw [hA] at hB
         cases hB
       · rfl)
  | cons r rest ih =>
    intro y px px' calls col hy h
    simp only [drawRows] at h
    split at h
    · cases h
    · rename_i px1 cs1 col1 hbits
      have hblen : ((List.range 8).reverse).length = 8 := by simp
      obtain ⟨B1, B2, B3, B4⟩ :=
        drawBits_spec r y hy ((List.range 8).reverse) x0 px px1 cs1 col1 hx0 hbits
      split_ifs at h with hyw
      · -- bottom edge reached after this row: the loop breaks
        rw [Except.ok.injEq, Prod.mk.injEq, Prod.mk.injEq] at h
        obtain ⟨f1, f2, f3⟩ := h
        subst f1; subst f2; subst f3
        refine ⟨?_, ?_, ?_, B4⟩
        · intro cy cx hc
          simp only [List.length_cons] at hc
          apply B1
          rw [hblen]
          rcases hc with hc | hc | hc | hc | hc | hc
          · exact Or.inl (by omega)
          · exact Or.inl (by omega)
          · exact Or.inl (by omega)
          · exact Or.inr (Or.inl hc)
          · exact Or.inr (Or.inr (Or.inl hc))
          · exact Or.inr (Or.inr (Or.inr hc))
        · intro cx cy
          rw [B2 cx cy]
          by_cases hcy : cy = y
          · simp [hcy]
          · rw [B1 cy cx (Or.inl hcy)]
            cases hq : px cy cx <;> simp [hq, hcy]
        · intro cx cy
          rw [B3 cx cy]
          by_cases hcy : cy = y
          · simp [hcy]
          · rw [B1 cy cx (Or.inl hcy)]
            cases hq : px cy cx <;> simp [hq, hcy]
      · -- keep drawing: recurse at row y + 1
        have hy1 : y + 1 < TERMINAL_HEIGHT := by omega
        split at h
        · cases h
        · rename_i px2 cs2 col2 hrec
          rw [Except.ok.injEq, Prod.mk.injEq, Prod.mk.injEq] at h
          obtain ⟨f1, f2, f3⟩ := h
          subst f1; subst f2; subst f3
          obtain ⟨R1, R2, R3, R4⟩ := ih (y + 1) px1 px2 cs2 col2 hy1 hrec
          refine ⟨?_, ?_, ?_, by rw [List.any_append, B4, R4]⟩
          · intro cy cx hc
            simp only [List.length_cons] at hc
            have s1 : px2 cy cx = px1 cy cx := by
              apply R1
              rcases hc with hc | hc | hc | hc | hc | hc
              · exact Or.inl (by omega)
              · exact Or.inr (Or.inl hc)
              · exact Or.inr (Or.inr (Or.inl (by omega)))
              · exact Or.inr (Or.inr (Or.inr (Or.inl hc)))
              · exact Or.inr (Or.inr (Or.inr (Or.inr (Or.inl hc))))
              · exact Or.inr (Or.inr (Or.inr (Or.inr (Or.inr hc))))
            have s2 : px1 cy cx = px cy cx := by
              apply B1
              rw [hblen]
              rcases hc with hc | hc | hc | hc | hc | hc
              · exact Or.inl (by omega)
              · exact Or.inl (by omega)
              · exact Or.inl (by omega)
              · exact Or.inr (Or.inl hc)
              · exact Or.inr (Or.inr (Or.inl hc))
              · exact Or.inr (Or.inr (Or.inr hc))
            rw [s1, s2]
          · intro cx cy
            rw [List.count_append, B2 cx cy, R2 cx cy]
            by_cases hcy : cy = y
            · have hfix : px2 cy cx = px1 cy cx := R1 cy cx (Or.inl (by omega))
              rw [hfix]
              cases hq : px1 cy cx <;> simp [hcy, hq]
            · rw [B1 cy cx (Or.inl hcy)]
              simp [hcy]
          · intro cx cy
            rw [List.count_append, B3 cx cy, R3 cx cy]
            by_cases hcy : cy = y
            · have hfix : px2 cy cx = px1 cy cx := R1 cy cx (Or.inl (by omega))
              rw [hfix]
              cases hq : px1 cy cx <;> simp [hcy, hq]
            · rw [B1 cy cx (Or.inl hcy)]
              simp [hcy]

/-- If the high bit of the row byte is set, the first visited cell of a
sprite row is XOR-toggled. -/
theorem drawBits_head_toggle (row x y : Nat) (hx : x < TERMINAL_WIDTH)
    (hy : y < TERMINAL_HEIGHT) (hbit : (row >>> 7) &&& 1 = 1)
    (px px' : Nat → Nat → Bool) (calls : List GCall) (col : Bool)
    (h : drawBits row (List.range 8).reverse x y px = .ok (px', calls, col)) :
    px' y x = !(px y x) := by
  obtain ⟨t, hsplit⟩ : ∃ t, (List.range 8).reverse = 7 :: t :=
    ⟨[6, 5, 4, 3, 2, 1, 0], by decide⟩
  rw [hsplit] at h
  simp only [drawBits] at h
  split at h
  · cases h
  · rename_i px1 cs1 col1 hstep
    have hio : isPixelOn px x y = .ok (px y x) := by
      have hco : check_coordinates x y = .ok () := by
        simp only [check_coordinates]
        rw [if_neg (by omega), if_neg (by omega)]
      simp only [isPixelOn, hco]
    simp only [drawBitStep, if_pos hbit, hio] at hstep
    rw [Except.ok.injEq, Prod.mk.injEq, Prod.mk.injEq] at hstep
    obtain ⟨e1, -, -⟩ := hstep
    subst e1
    split_ifs at h with hxw
    · rw [Except.ok.injEq, Prod.mk.injEq, Prod.mk.injEq] at h
      obtain ⟨f1, -, -⟩ := h
      subst f1
      exact setPixel_self ..
    · have hx1 : x + 1 < TERMINAL_WIDTH := by omega
      split at h
      · cases h
      · rename_i px2 cs2 col2 hrec
        rw [Except.ok.injEq, Prod.mk.injEq, Prod.mk.injEq] at h
        obtain ⟨f1, -, -⟩ := h
        subst f1
        rw [(drawBits_spec row y hy t (x + 1) _ px2 cs2 col2
              hx1 hrec).1 y x (Or.inr (Or.inl (by omega)))]
        exact setPixel_self ..

/-- If the high bit of the first sprite byte is set, the origin cell of a
sprite draw is XOR-toggled. -/
theorem drawRows_head_toggle (x0 y0 : Nat) (hx0 : x0 < TERMINAL_WIDTH)
    (hy0 : y0 < TERMINAL_HEIGHT) (r : Nat) (rows' : List Nat)
    (hbit : (r >>> 7) &&& 1 = 1) (px px' : Nat → Nat → Bool)
    (calls : List GCall) (col : Bool)
    (h : drawRows x0 (r :: rows') y0 px = .ok (px', calls, col)) :
    px' y0 x0 = !(px y0 x0) := by
  simp only [drawRows] at h
  split at h
  · cases h
  · rename_i px1 cs1 col1 hbits
    have hhead : px1 y0 x0 = !(px y0 x0) :=
      drawBits_head_toggle r x0 y0 hx0 hy0 hbit px px1 cs1 col1 hbits
    split_ifs at h with hyw
    · rw [Except.ok.injEq, Prod.mk.injEq, Prod.mk.injEq] at h
      obtain ⟨f1, -, -⟩ := h
      subst f1
      exact hhead
    · have hy1 : y0 + 1 < TERMINAL_HEIGHT := by omega
      split at h
      · cases h
      · rename_i px2 cs2 col2 hrec
        rw [Except.ok.injEq, Prod.mk.injEq, Prod.mk.injEq] at h
        obtain ⟨f1, -, -⟩ := h
        subst f1
        rw [(drawRows_spec x0 hx0 rows' (y0 + 1) px1 px2 cs2 col2 hy1 hrec).1
            y0 x0 (Or.inl (by omega))]
        exact hhead

/-- Inversion of the `Dxyn` arm of the engine: a successful sprite draw is a
successful `drawRows` from the wrapped origin, with `VF` set to the
collision flag (after the initial reset to 0). -/
theorem execute_dxyn_inv (s : Chip8) (x y n r : Nat) (s' : Chip8)
    (calls : List GCall)
    (h : execute_instruction s (.Dxyn x y n) r = .ok (s', calls)) :
    ∃ collision : Bool,
      drawRows (s.registers x % TERMINAL_WIDTH)
          ((List.range n).map fun k => s.ram (s.i + k))
          (s.registers y % TERMINAL_HEIGHT) s.pixels =
        .ok (s'.pixels, calls, collision) ∧
      s'.registers 15 = (if collision then 1 else 0) ∧
      (∀ j, j ≠ 15 → s'.registers j = s.registers j) := by
  simp only [execute_instruction] at h
  split_ifs at h with hg
  · split at h
    · cases h
    · rename_i px' calls' collision hD
      rw [Except.ok.injEq, Prod.mk.injEq] at h
      obtain ⟨f1, f2⟩ := h
      subst f1; subst f2
      refine ⟨collision, ?_, ?_, ?_⟩
      · cases collision <;> simpa using hD
      · cases collision <;> simp [setReg]
      · intro j hj
        cases collision <;> simp [setReg, hj]

/-- C1: a sprite draw `Dxyn` starts at origin `(Vx % 64, Vy % 32)`: only
cells inside the clipped window anchored there (truncated at the right and
bottom screen edges, never wrapped) can change, the origin cell itself is
toggled when the first sprite bit is set, and `VF` is reset and ends `1`
exactly when some drawn bit turned a set pixel off (else `0`). -/
theorem C1_dxyn_origin_clip_collision :
    ∀ (s : Chip8) (x y n r : Nat) (s' : Chip8) (calls : List GCall),
      execute_instruction s (.Dxyn x y n) r = .ok (s', calls) →
      (s'.registers 15 = 0 ∨ s'.registers 15 = 1) ∧
      (s'.registers 15 = 1 ↔
        ∃ cx cy, cx < TERMINAL_WIDTH ∧ cy < TERMINAL_HEIGHT ∧
          s.pixels cy cx = true ∧ s'.pixels cy cx = false) ∧
      (∀ cx cy,
        ¬(s.registers x % TERMINAL_WIDTH ≤ cx ∧
          cx < s.registers x % TERMINAL_WIDTH + 8 ∧
          cx < TERMINAL_WIDTH ∧
          s.registers y % TERMINAL_HEIGHT ≤ cy ∧
          cy < s.registers y % TERMINAL_HEIGHT + n ∧
          cy < TERMINAL_HEIGHT) →
        s'.pixels cy cx = s.pixels cy cx) ∧
      (0 < n → (s.ram s.i >>> 7) &&& 1 = 1 →
        s'.pixels (s.registers y % TERMINAL_HEIGHT)
            (s.registers x % TERMINAL_WIDTH) =
          !(s.pixels (s.registers y % TERMINAL_HEIGHT)
              (s.registers x % TERMINAL_WIDTH))) := by
  intro s x y n r s' calls h
  obtain ⟨collision, hD, hVF, -⟩ := execute_dxyn_inv s x y n r s' calls h
  have hx0 : s.registers x % TERMINAL_WIDTH < TERMINAL_WIDTH :=
    Nat.mod_lt _ (by decide)
  have hy0 : s.registers y % TERMINAL_HEIGHT < TERMINAL_HEIGHT :=
    Nat.mod_lt _ (by decide)
  obtain ⟨F, CD, CC, COL⟩ := drawRows_spec _ hx0 _ _ _ _ _ _ hy0 hD
  simp only [List.length_map, List.length_range] at F
  have hiff : collision = true ↔
      ∃ cx cy, cx < TERMINAL_WIDTH ∧ cy < TERMINAL_HEIGHT ∧
        s.pixels cy cx = true ∧ s'.pixels cy cx = false := by
    constructor
    · intro hc
      rw [COL] at hc
      obtain ⟨c, hmem, hcl⟩ := List.any_eq_true.mp hc
      cases c with
      | draw a b => cases hcl
      | clear a b =>
        have hpos : 0 < calls.count (GCall.clear a b) :=
          List.count_pos_iff.mpr hmem
        rw [CC a b] at hpos
        split_ifs at hpos with hcond
        · obtain ⟨hon, hoff⟩ := hcond
          have hchange : s'.pixels b a ≠ s.pixels b a := by
            rw [hon, hoff]
            exact Bool.false_ne_true
          have haW : a < TERMINAL_WIDTH := by
            by_contra hk
            push_neg at hk
            exact hchange (F b a (Or.inr (Or.inr (Or.inr (Or.inr (Or.inl hk))))))
          have hbH : b < TERMINAL_HEIGHT := by
            by_contra hk
            push_neg at hk
            exact hchange (F b a (Or.inr (Or.inl hk)))
          exact ⟨a, b, haW, hbH, hon, hoff⟩
        · omega
    · rintro ⟨cx, cy, -, -, hon, hoff⟩
      have hcnt := CC cx cy
      rw [if_pos ⟨hon, hoff⟩] at hcnt
      have hmem : GCall.clear cx cy ∈ calls :=
        List.count_pos_iff.mp (by omega)
      rw [COL]
      exact List.any_eq_true.mpr ⟨_, hmem, rfl⟩
  refine ⟨?_, ?_, ?_, ?_⟩
  · rw [hVF]
    cases collision <;> simp
  · rw [hVF]
    cases hcol : collision
    · rw [hcol] at hiff
      simp only [if_neg Bool.false_ne_true]
      constructor
      · intro h0
        cases h0
      · intro hex
        have : False := by
          have := hiff.mpr hex
          cases this
        exact this.elim
    · rw [hcol] at hiff
      simp only [if_pos rfl]
      exact ⟨fun _ => hiff.mp rfl, fun _ => rfl⟩
  · intro cx cy hc
    exact F cy cx (by omega)
  · intro hn hbit7
    obtain ⟨m, rfl⟩ : ∃ m, n = m + 1 := ⟨n - 1, by omega⟩
    have hsplitrows : (List.range (m + 1)).map (fun k => s.ram (s.i + k)) =
        s.ram s.i :: ((List.range m).map fun k => s.ram (s.i + (k + 1))) := by
      rw [List.range_succ_eq_map]
      simp [List.map_map, Function.comp]
    rw [hsplitrows] at hD
    exact drawRows_head_toggle _ _ hx0 hy0 _ _ hbit7 _ _ _ _ hD

/-- Count of a `clear_pixel` call in one row of the clear-screen sweep. -/
theorem count_clear_clsRow (px : Nat → Nat → Bool) (yy cx cy : Nat) :
    ∀ m, ((List.range m).filterMap fun xx =>
        if px yy xx then some (GCall.clear xx yy) else none).count
          (GCall.clear cx cy) =
      if cy = yy ∧ cx < m ∧ px yy cx then 1 else 0 := by
  intro m
  induction m with
  | zero => simp
  | succ k ihm =>
    rw [List.range_succ, List.filterMap_append, List.count_append, ihm]
    have hone : ((List.filterMap
        (fun xx => if px yy xx then some (GCall.clear xx yy) else none))
          [k]).count (GCall.clear cx cy) =
        if cy = yy ∧ cx = k ∧ px yy k then 1 else 0 := by
      by_cases hpk : px yy k
      · rw [show List.filterMap
            (fun xx => if px yy xx then some (GCall.clear xx yy) else none) [k] =
            [GCall.clear k yy] from by simp [hpk]]
        by_cases hcy : cy = yy
        · by_cases hcx : cx = k
          · simp [List.count_cons, List.count_nil, hcy, hcx, hpk]
          · simp [List.count_cons, List.count_nil, hcy, hcx, Ne.symm hcx, hpk]
        · simp [List.count_cons, List.count_nil, hcy, Ne.symm hcy]
      · rw [show List.filterMap
            (fun xx => if px yy xx then some (GCall.clear xx yy) else none) [k] =
            [] from by simp [hpk]]
        simp [hpk]
    rw [hone]
    by_cases hcy : cy = yy <;> by_cases hcx : cx = k <;>
      cases hq : px yy cx <;> cases hq2 : px yy k <;> simp_all <;>
      first | omega | (split_ifs <;> omega)

/-- Count of a `clear_pixel` call in the whole clear-screen sweep. -/
theorem count_clear_cls (px : Nat → Nat → Bool) (cx cy : Nat) :
    ∀ m, (((List.range m).flatMap fun yy =>
        (List.range TERMINAL_WIDTH).filterMap fun xx =>
          if px yy xx then some (GCall.clear xx yy) else none)).count
            (GCall.clear cx cy) =
      if cy < m ∧ cx < TERMINAL_WIDTH ∧ px cy cx then 1 else 0 := by
  intro m
  induction m with
  | zero => simp
  | succ k ihm =>
    rw [List.range_succ, List.flatMap_append, List.count_append, ihm]
    rw [show ([k] : List Nat).flatMap (fun yy =>
        (List.range TERMINAL_WIDTH).filterMap fun xx =>
          if px yy xx then some (GCall.clear xx yy) else none) =
        (List.range TERMINAL_WIDTH).filterMap fun xx =>
          if px k xx then some (GCall.clear xx k) else none from by simp]
    rw [count_clear_clsRow]
    by_cases hcy : cy = k <;> cases hq : px cy cx <;> simp_all <;>
      first | omega | (split_ifs <;> omega)

/-- The clear-screen sweep makes no `draw_pixel` call. -/
theorem count_draw_cls (px : Nat → Nat → Bool) (cx cy : Nat) :
    (((List.range TERMINAL_HEIGHT).flatMap fun yy =>
        (List.range TERMINAL_WIDTH).filterMap fun xx =>
          if px yy xx then some (GCall.clear xx yy) else none)).count
            (GCall.draw cx cy) = 0 := by
  rw [List.count_eq_zero]
  intro hmem
  simp only [List.mem_flatMap, List.mem_filterMap] at hmem
  obtain ⟨yy, -, xx, -, heq⟩ := hmem
  split_ifs at heq <;> simp at heq

/-- Any `clear_pixel` call of the clear-screen sweep is in bounds. -/
theorem mem_cls_lt (px : Nat → Nat → Bool) (cx cy : Nat)
    (hmem : GCall.clear cx cy ∈ (List.range TERMINAL_HEIGHT).flatMap fun yy =>
        (List.range TERMINAL_WIDTH).filterMap fun xx =>
          if px yy xx then some (GCall.clear xx yy) else none) :
    cx < TERMINAL_WIDTH ∧ cy < TERMINAL_HEIGHT := by
  simp only [List.mem_flatMap, List.mem_filterMap, List.mem_range] at hmem
  obtain ⟨yy, hyy, xx, hxx, heq⟩ := hmem
  split_ifs at heq
  rw [Option.some.injEq] at heq
  injection heq with h1 h2
  exact ⟨h1 ▸ hxx, h2 ▸ hyy⟩

/-- C6: over clear-screen and sprite-draw execution, every in-screen
framebuffer cell that flips is paired with exactly one graphics call of the
matching kind (`draw_pixel` for off-to-on, `clear_pixel` for on-to-off), a
cell that does not change gets no call, and every graphics call carries
in-bounds coordinates. -/
theorem C6_graphics_mirror_framebuffer :
    ∀ (s : Chip8) (inst : Instruction) (r : Nat) (s' : Chip8)
      (calls : List GCall),
      (inst = .Cls00E0 ∨ ∃ x y n, inst = .Dxyn x y n) →
      execute_instruction s inst r = .ok (s', calls) →
      (∀ cx cy, cx < TERMINAL_WIDTH → cy < TERMINAL_HEIGHT →
        calls.count (GCall.draw cx cy) =
          (if s.pixels cy cx = false ∧ s'.pixels cy cx = true then 1 else 0) ∧
        calls.count (GCall.clear cx cy) =
          (if s.pixels cy cx = true ∧ s'.pixels cy cx = false then 1 else 0)) ∧
      (∀ cx cy, (GCall.draw cx cy ∈ calls ∨ GCall.clear cx cy ∈ calls) →
        cx < TERMINAL_WIDTH ∧ cy < TERMINAL_HEIGHT) := by
  intro s inst r s' calls hinst h
  rcases hinst with rfl | ⟨x, y, n, rfl⟩
  · simp only [execute_instruction] at h
    rw [Except.ok.injEq, Prod.mk.injEq] at h
    obtain ⟨f1, f2⟩ := h
    subst f1; subst f2
    constructor
    · intro cx cy hcx hcy
      constructor
      · rw [count_draw_cls]
        simp
      · rw [count_clear_cls]
        simp [hcx, hcy]
    · intro cx cy hmem
      rcases hmem with hmem | hmem
      · exact absurd (List.count_pos_iff.mpr hmem)
          (by rw [count_draw_cls]; omega)
      · exact mem_cls_lt s.pixels cx cy hmem
  · obtain ⟨collision, hD, -, -⟩ := execute_dxyn_inv s x y n r s' calls h
    have hx0 : s.registers x % TERMINAL_WIDTH < TERMINAL_WIDTH :=
      Nat.mod_lt _ (by decide)
    have hy0 : s.registers y % TERMINAL_HEIGHT < TERMINAL_HEIGHT :=
      Nat.mod_lt _ (by decide)
    obtain ⟨F, CD, CC, -⟩ := drawRows_spec _ hx0 _ _ _ _ _ _ hy0 hD
    constructor
    · intro cx cy _ _
      exact ⟨CD cx cy, CC cx cy⟩
    · intro cx cy hmem
      have hchange : s'.pixels cy cx ≠ s.pixels cy cx := by
        rcases hmem with hmem | hmem
        · have hpos := List.count_pos_iff.mpr hmem
          rw [CD cx cy] at hpos
          split_ifs at hpos with hcond
          · rw [hcond.1, hcond.2]
            simp
          · omega
        · have hpos := List.count_pos_iff.mpr hmem
          rw [CC cx cy] at hpos
          split_ifs at hpos with hcond
          · rw [hcond.1, hcond.2]
            simp
          · omega
      constructor
      · by_contra hk
        push_neg at hk
        exact hchange (F cy cx (Or.inr (Or.inr (Or.inr (Or.inr (Or.inl hk))))))
      · by_contra hk
        push_neg at hk
        exact hchange (F cy cx (Or.inr (Or.inl hk)))

/-- A machine about to draw an 8-pixel-wide sprite row at origin `(60, 5)`
with the cell `(60, 5)` already lit: `V0 = 60`, `V1 = 5`, `I = 0`, sprite
byte `0xFF` at address 0. -/
def sC : Chip8 :=
  { baseState with
    registers := fun j => if j = 0 then 60 else if j = 1 then 5 else 0,
    ram := fun a => if a = 0 then 0xFF else 0,
    pixels := fun y x => decide (y = 5 ∧ x = 60) }

/-- The state after `Dxyn 0 1 1` on `sC`: cell `(60, 5)` cleared by the
collision, cells 61-63 of row 5 switched on, `VF = 1`. -/
def sC1 : Chip8 :=
  { sC with
    registers := setReg (setReg sC.registers 15 0) 15 1,
    pixels := setPixel (setPixel (setPixel (setPixel sC.pixels 5 60 false)
      5 61 true) 5 62 true) 5 63 true }

/-- The graphics calls of that draw: one clear for the collision, three
draws, clipped at column 63. -/
def sC1calls : List GCall :=
  [GCall.clear 60 5, GCall.draw 61 5, GCall.draw 62 5, GCall.draw 63 5]

/-- C1 witness: drawing the 8-bit row at `x = 60` collides at `(60, 5)` so
`VF = 1`, and cell `(0, 5)` stays off — the row is clipped at the right
edge, not wrapped around to column 0. -/
theorem C1_witness : sC1.registers 15 = 1 ∧ sC1.pixels 5 0 = false := by
  have h := C1_dxyn_origin_clip_collision sC 0 1 1 0 sC1 sC1calls rfl
  exact ⟨h.2.1.mpr ⟨60, 5, by decide, by decide, by decide, by decide⟩,
    (h.2.2.1 0 5 (by decide)).trans (by decide)⟩

/-- The state after clear-screen on `sC`. -/
def sCcls : Chip8 := { sC with pixels := fun _ _ => false }

/-- C6 witness: clearing the screen of `sC` issues exactly one
`clear_pixel (60, 5)` call — the only lit cell — and no call at `(0, 0)`. -/
theorem C6_witness :
    List.count (GCall.clear 60 5) [GCall.clear 60 5] = 1 ∧
    List.count (GCall.clear 0 0) [GCall.clear 60 5] = 0 := by
  have h := C6_graphics_mirror_framebuffer sC .Cls00E0 0 sCcls
    [GCall.clear 60 5] (Or.inl rfl) rfl
  constructor
  · rw [(h.1 60 5 (by decide) (by decide)).2]
    decide
  · rw [(h.1 0 0 (by decide) (by decide)).2]
    decide
